import Mathlib

/-!
# A shallow embedding of the nexusq2 broadcast channel

This file models the core of the `nexusq2` crate (`src/lib.rs`, `src/cell.rs`,
`src/sender.rs`, `src/receiver.rs`): a bounded, power-of-two ring of cells with
per-cell reader counts and publication ids, a takeable write-head (`tail`)
pointer serialising producers, and per-receiver cursors.

Machine integers (`usize`) are modelled as `Nat`.  The code relies on 64-bit
ids never wrapping (the crate documents that wrap-around is not defensively
handled), so the monotone counters (`claimed`, `cursor`, `read_counter`,
`num_receivers`) are unbounded naturals; the `current_id` "never published"
sentinel `usize::MAX` is kept as the explicit constant `USIZE_MAX`.

Concurrency is modelled by sequential interleaving: every public channel
operation is one atomic step on a `World` that holds the shared `NexusQ` state
together with the per-handle state of every live receiver and of the async
part of every sender.  A step relation `Step` closes the set of worlds
reachable from `make_channel` under those operations.
-/

deriving instance DecidableEq for Except

namespace NexusQ2

/-- `usize::MAX`, the `Cell::current_id` sentinel meaning "never published"
(`cell.rs`, `Cell::new` initialises `current_id` to `usize::MAX`). -/
def USIZE_MAX : Nat := 2 ^ 64 - 1

/-- `isize::MAX`, the largest admissible buffer size (`lib.rs`). -/
def ISIZE_MAX : Nat := 2 ^ 63 - 1

/-- Modelled from the spec: `prelude.rs` (the `FastMod` trait) is not under
`src/`.  The spec fixes `fast_mod` as remainder by a power of two, and the
`fast_mod_tests` module in `lib.rs` asserts `n.fast_mod(d) = n % d` for every
power of two `d`.  All call sites use a power-of-two buffer length. -/
def fast_mod (n d : Nat) : Nat := n % d

/-- Fuel-driven helper for `maybe_next_power_of_two`; the fuel makes the
recursion structural so that concrete instances evaluate in the kernel. -/
def npotFuel : Nat → Nat → Nat
  | 0, _ => 1
  | f + 1, n => if n ≤ 1 then 1 else 2 * npotFuel f ((n + 1) / 2)

/-- Modelled from the spec: `prelude.rs` (the `FastMod` trait, whose
`maybe_next_power_of_two` is called by `NexusQ::with_strategies`) is not under
`src/`.  Per the spec, the user-requested size is "rounded up to next power of
two", i.e. Rust's `usize::next_power_of_two`. -/
def maybe_next_power_of_two (n : Nat) : Nat := npotFuel n n

/-- One slot of the ring (`cell.rs`, `struct Cell`).  The payload is an
`Option` because cells start empty; `read_counter` counts the receivers whose
"previous cell" is this cell; `current_id` is the publication id of the most
recent write, initially the `USIZE_MAX` sentinel. -/
structure Cell (T : Type) where
  value : Option T
  read_counter : Nat
  current_id : Nat
  deriving Repr, DecidableEq

/-- `Cell::new` (`cell.rs`): empty payload, zero readers, sentinel id. -/
def Cell.new (T : Type) : Cell T :=
  { value := none, read_counter := 0, current_id := USIZE_MAX }

/-- `Cell::move_to` (`cell.rs`): increment the reader count. -/
def Cell.move_to {T : Type} (c : Cell T) : Cell T :=
  { c with read_counter := c.read_counter + 1 }

/-- `Cell::move_from` (`cell.rs`): decrement the reader count (the code
`debug_assert!`s that the old count is at least 1). -/
def Cell.move_from {T : Type} (c : Cell T) : Cell T :=
  { c with read_counter := c.read_counter - 1 }

/-- `Cell::safe_to_write` (`cell.rs`): reader count is zero. -/
def Cell.safe_to_write {T : Type} (c : Cell T) : Bool :=
  c.read_counter == 0

/-- `Cell::write_and_publish` (`cell.rs`): replace the payload, stamp the id,
and return the displaced payload (which the code drops). -/
def Cell.write_and_publish {T : Type} (c : Cell T) (v : T) (id : Nat) :
    Cell T × Option T :=
  ({ value := some v, read_counter := c.read_counter, current_id := id },
   c.value)

/-- The per-handle state of a `Receiver` (`receiver.rs`): `cursor` is the next
id it expects, `prev` is `previous_cell_index`. -/
structure Rcv where
  cursor : Nat
  prev : Nat
  deriving Repr, DecidableEq

/-- The async half of a `Sender` (`sender.rs`, `struct AsyncState`):
`currentCell` is the index of the cell taken from the tail (`null` = `none`),
`claimedId` the id claimed for it.  `ready` is a ghost flag recording that
`poll_ready` has returned `Ready` and `start_send` has not yet run; it does
not influence any transition. -/
structure Snd where
  currentCell : Option Nat
  claimedId : Nat
  ready : Bool
  deriving Repr, DecidableEq

/-- `AsyncState::default` (`sender.rs`): null cell pointer, claimed 0. -/
def Snd.new : Snd := { currentCell := none, claimedId := 0, ready := false }

/-- The whole channel at one instant: the shared `NexusQ` (`lib.rs`) plus the
state of every live `Receiver` handle and of every `Sender` handle's async
part.  `tail` holds the index of the cell the write-head points at, `none`
when the pointer has been swapped to null (taken).  `dropLog` is a ghost list
of the payloads dropped so far by overwrites in `write_and_publish`. -/
structure World (T : Type) where
  buffer : List (Cell T)
  claimed : Nat
  tail : Option Nat
  num_receivers : Nat
  receivers : List Rcv
  senders : List Snd
  dropLog : List T
  deriving Repr, DecidableEq

/-- The cell at a ring index.  All reachable indices are in bounds (the code
manufactures them as `id % buffer length` or stores them in the tail pointer);
the default is never hit from a reachable state. -/
def cellAt {T : Type} (w : World T) (i : Nat) : Cell T :=
  w.buffer.getD i (Cell.new T)

/-- Replace the cell at a ring index. -/
def setCell {T : Type} (w : World T) (i : Nat) (c : Cell T) : World T :=
  { w with buffer := w.buffer.set i c }

/-- Apply a cell operation in place (models calling a `&self` method on
`buffer[i]`). -/
def modifyCell {T : Type} (w : World T) (i : Nat) (f : Cell T → Cell T) :
    World T :=
  setCell w i (f (cellAt w i))

/-- `NexusError` (`lib.rs`). -/
inductive NexusError where
  | BufferTooSmall
  | BufferTooLarge
  deriving Repr, DecidableEq

/-- The world produced by `make_channel` for an already-validated power-of-two
ring length `n`: `NexusQ::with_strategies` seeds `claimed = 1` and points the
tail at `buffer_raw.add(1)`; `Receiver::new` then increments `num_receivers`
and the read counter of cell 0 (its initial `previous_cell_index`);
`Sender::new` starts with a default `AsyncState`. -/
def initWorld (T : Type) (n : Nat) : World T :=
  { buffer := ((List.replicate n (Cell.new T)).set 0 (Cell.move_to (Cell.new T))),
    claimed := 1,
    tail := some 1,
    num_receivers := 1,
    receivers := [{ cursor := 1, prev := 0 }],
    senders := [Snd.new],
    dropLog := [] }

/-- `make_channel` (`lib.rs`): validate the size, round it up to a power of
two, and build the initial sender/receiver pair. -/
def makeChannel (T : Type) (size : Nat) : Except NexusError (World T) :=
  if size < 2 then .error .BufferTooSmall
  else if size > ISIZE_MAX then .error .BufferTooLarge
  else .ok (initWorld T (maybe_next_power_of_two size))

/-- `SendError` (`sender.rs`). -/
inductive SendError (T : Type) where
  | Full : T → SendError T
  | Timeout : T → SendError T
  | Disconnected : Option T → SendError T
  deriving Repr, DecidableEq

/-- Result of one synchronous send call.  `blocked` marks the point where the
call would wait on another thread (take the tail, or `wait_for_write_safe`)
with no other thread able to run in this interleaving. -/
inductive SendRes (T : Type) where
  | ok : World T → Nat → Nat → SendRes T
  | err : SendError T → World T → SendRes T
  | blocked : SendRes T
  deriving Repr, DecidableEq

/-- The shared tail of every successful sync send (`sender.rs`): with the tail
cell at `idx` in hand and known write-safe, `claimed.fetch_add(1)` yields the
id `k`, the tail pointer is restored to `buffer_raw.add((k+1) % len)`
(`notify_one` has no state effect), and `write_and_publish(value, k)` stamps
the cell; the displaced payload is dropped. -/
def sendSucceed {T : Type} (w : World T) (idx : Nat) (v : T) :
    World T × Nat × Nat :=
  let k := w.claimed
  let nextIdx := fast_mod (k + 1) w.buffer.length
  let wp := (cellAt w idx).write_and_publish v k
  ({ w with
      buffer := w.buffer.set idx wp.1,
      claimed := k + 1,
      tail := some nextIdx,
      dropLog := w.dropLog ++ wp.2.toList },
   k, idx)

/-- `Sender::send` (`sender.rs`): fail fast when `num_receivers == 0`, take
the tail pointer (blocking), wait for the cell to be reader-free (blocking),
then claim, restore the tail, and publish. -/
def send {T : Type} (w : World T) (v : T) : SendRes T :=
  if w.num_receivers = 0 then .err (.Disconnected (some v)) w
  else
    match w.tail with
    | none => .blocked
    | some idx =>
      if (cellAt w idx).read_counter = 0 then
        let r := sendSucceed { w with tail := none } idx v
        .ok r.1 r.2.1 r.2.2
      else .blocked

/-- `Sender::try_send` (`sender.rs`): fail fast when `num_receivers == 0`;
`swap` the tail with null and return `Full` if it was already null; if the
cell is not `safe_to_write`, restore the tail and return `Full`; otherwise
claim and publish. -/
def trySend {T : Type} (w : World T) (v : T) : SendRes T :=
  if w.num_receivers = 0 then .err (.Disconnected (some v)) w
  else
    match w.tail with
    | none => .err (.Full v) w
    | some idx =>
      if (cellAt w idx).read_counter = 0 then
        let r := sendSucceed { w with tail := none } idx v
        .ok r.1 r.2.1 r.2.2
      else .err (.Full v) { w with tail := some idx }

/-- `Sender::try_send_before` (`sender.rs`).  `deadlinePassed` is the oracle
for the up-front `deadline < Instant::now()` check; after that, in a frozen
interleaving, `take_ptr_before` times out exactly when the tail is null and
`wait_for_write_safe_before` times out exactly when the cell has readers (the
tail is restored in that case). -/
def trySendBefore {T : Type} (w : World T) (v : T) (deadlinePassed : Bool) :
    SendRes T :=
  if w.num_receivers = 0 then .err (.Disconnected (some v)) w
  else if deadlinePassed then .err (.Timeout v) w
  else
    match w.tail with
    | none => .err (.Timeout v) w
    | some idx =>
      if (cellAt w idx).read_counter = 0 then
        let r := sendSucceed { w with tail := none } idx v
        .ok r.1 r.2.1 r.2.2
      else .err (.Timeout v) { w with tail := some idx }

/-- `RecvError` (`receiver.rs`). -/
inductive RecvError where
  | Timeout
  | NoNewData
  deriving Repr, DecidableEq

/-- Result of one receive call.  The payload is an `Option`: `Cell::read`
clones the `Option` and `unwrap_unchecked`s it, so `none` marks the undefined
behaviour of reading a never-written cell.  `blocked` is a wait with no other
thread able to run; `noReceiver` means no live receiver handle has this
index. -/
inductive RecvRes (T : Type) where
  | ok : Option T → World T → RecvRes T
  | err : RecvError → World T → RecvRes T
  | blocked : RecvRes T
  | noReceiver : RecvRes T
  deriving Repr, DecidableEq

/-- The shared tail of every successful receive (`receiver.rs`): `move_to` the
newly-read cell, `move_from` the previous one, then update
`previous_cell_index` and `cursor`.  `recv`/`try_recv`/`try_recv_until`/
`poll_next` use `newPrev = cursor % len` and `newCursor = cursor + 1`;
`try_recv_batch` jumps both by the batch length. -/
def advanceReceiver {T : Type} (w : World T) (r : Nat) (rc : Rcv)
    (newCursor newPrev : Nat) : World T :=
  let w1 := modifyCell w newPrev Cell.move_to
  let w2 := modifyCell w1 rc.prev Cell.move_from
  { w2 with receivers := w2.receivers.set r { cursor := newCursor, prev := newPrev } }

/-- `Receiver::recv` (`receiver.rs`): wait (blocking) until the cell at
`cursor % len` publishes id `cursor`, then advance and clone the payload. -/
def recv {T : Type} (w : World T) (r : Nat) : RecvRes T :=
  match w.receivers[r]? with
  | none => .noReceiver
  | some rc =>
    let ci := fast_mod rc.cursor w.buffer.length
    if (cellAt w ci).current_id = rc.cursor then
      .ok (cellAt w ci).value (advanceReceiver w r rc (rc.cursor + 1) ci)
    else .blocked

/-- `Receiver::try_recv` (`receiver.rs`): like `recv` but `NoNewData` when the
cell's published id is not `cursor`. -/
def tryRecv {T : Type} (w : World T) (r : Nat) : RecvRes T :=
  match w.receivers[r]? with
  | none => .noReceiver
  | some rc =>
    let ci := fast_mod rc.cursor w.buffer.length
    if (cellAt w ci).current_id = rc.cursor then
      .ok (cellAt w ci).value (advanceReceiver w r rc (rc.cursor + 1) ci)
    else .err .NoNewData w

/-- `Receiver::try_recv_until` (`receiver.rs`): in a frozen interleaving
`wait_for_published_until` times out exactly when the id is not yet
published. -/
def tryRecvUntil {T : Type} (w : World T) (r : Nat) : RecvRes T :=
  match w.receivers[r]? with
  | none => .noReceiver
  | some rc =>
    let ci := fast_mod rc.cursor w.buffer.length
    if (cellAt w ci).current_id = rc.cursor then
      .ok (cellAt w ci).value (advanceReceiver w r rc (rc.cursor + 1) ci)
    else .err .Timeout w

/-- `Stream::poll_next` for `Receiver` (`receiver.rs`): `Ready` exactly when
the id is published; `blocked` stands for `Pending`. -/
def pollNext {T : Type} (w : World T) (r : Nat) : RecvRes T :=
  match w.receivers[r]? with
  | none => .noReceiver
  | some rc =>
    let ci := fast_mod rc.cursor w.buffer.length
    if (cellAt w ci).current_id = rc.cursor then
      .ok (cellAt w ci).value (advanceReceiver w r rc (rc.cursor + 1) ci)
    else .blocked

/-- `Receiver::try_recv_batch` (`receiver.rs`): clamp `max_results` to
`len - 1`; load `claimed`; if the cell at `claimed % len` has
`current_id < claimed`, treat the head claim as unpublished and step back one;
read `min (claimed - cursor) max_results` payload clones starting at
`cursor`; finally advance the cursor by that many and issue a single
`move_to`/`move_from` pair on the last cell read.  Returns the count, the
payload clones in order, and the new world; `none` means no such receiver. -/
def tryRecvBatch {T : Type} (w : World T) (r : Nat) (maxResults : Nat) :
    Option (Nat × List (Option T) × World T) :=
  match w.receivers[r]? with
  | none => none
  | some rc =>
    let n := w.buffer.length
    let m := min maxResults (n - 1)
    if m = 0 then some (0, [], w)
    else
      let claimed0 := w.claimed
      let cci := fast_mod claimed0 n
      let claimed1 :=
        if (cellAt w cci).current_id < claimed0 then claimed0 - 1 else claimed0
      if claimed1 ≤ rc.cursor then some (0, [], w)
      else
        let numToRead := min (claimed1 - rc.cursor) m
        let vals := (List.range numToRead).map
          (fun i => (cellAt w (fast_mod (rc.cursor + i) n)).value)
        let lastIdx := fast_mod (rc.cursor + numToRead - 1) n
        some (numToRead, vals,
          advanceReceiver w r rc (rc.cursor + numToRead) lastIdx)

/-- `Receiver::clone` (`receiver.rs`): `move_to` the previous cell, bump
`num_receivers`, and add a handle with the same cursor and previous index. -/
def cloneReceiver {T : Type} (w : World T) (r : Nat) : Option (World T) :=
  match w.receivers[r]? with
  | none => none
  | some rc =>
    let w1 := modifyCell w rc.prev Cell.move_to
    some { w1 with
            num_receivers := w1.num_receivers + 1,
            receivers := w1.receivers ++ [rc] }

/-- `Receiver::drop` (`receiver.rs`): decrement `num_receivers`, `move_from`
the previous cell, and discard the handle. -/
def dropReceiver {T : Type} (w : World T) (r : Nat) : Option (World T) :=
  match w.receivers[r]? with
  | none => none
  | some rc =>
    let w1 := modifyCell { w with num_receivers := w.num_receivers - 1 }
      rc.prev Cell.move_from
    some { w1 with receivers := w1.receivers.eraseIdx r }

/-- `Receiver::new_sender` (`receiver.rs`) and `Sender::clone` (`sender.rs`):
a fresh sender handle on the same nexus, with a default async state. -/
def newSender {T : Type} (w : World T) : World T :=
  { w with senders := w.senders ++ [Snd.new] }

/-- Result of one `Sink::poll_ready` call on a `Sender`. -/
inductive PollRes (T : Type) where
  | ready : World T → PollRes T
  | pending : World T → PollRes T
  | disconnected : World T → PollRes T
  | noSender : PollRes T
  deriving Repr, DecidableEq

/-- Second half of `poll_ready` (`sender.rs`): with the taken cell `idx` in
the sender's `current_cell`, poll it write-safe; on success
`claimed.fetch_add(1)` yields the id, the tail is restored to the next index,
and the sender remembers the claimed id (ghost: `ready := true`). -/
def pollReadyFinish {T : Type} (w : World T) (s : Nat) (idx : Nat) :
    PollRes T :=
  if (cellAt w idx).read_counter = 0 then
    match w.senders[s]? with
    | none => .noSender
    | some sd =>
      let k := w.claimed
      let nextIdx := fast_mod (k + 1) w.buffer.length
      .ready { w with
                claimed := k + 1,
                tail := some nextIdx,
                senders := w.senders.set s
                  { sd with claimedId := k, ready := true } }
  else .pending w

/-- `Sink::poll_ready` (`sender.rs`): report `Disconnected(None)` when there
are no receivers; take the tail pointer first if `current_cell` is still
null (staying `Pending`, with the token held, if the cell is not yet
write-safe); then claim and restore the tail. -/
def pollReady {T : Type} (w : World T) (s : Nat) : PollRes T :=
  match w.senders[s]? with
  | none => .noSender
  | some sd =>
    if w.num_receivers = 0 then .disconnected w
    else
      match sd.currentCell with
      | none =>
        match w.tail with
        | none => .pending w
        | some idx =>
          let w1 := { w with
                       tail := none,
                       senders := w.senders.set s
                         { sd with currentCell := some idx } }
          pollReadyFinish w1 s idx
      | some idx => pollReadyFinish w s idx

/-- `Sink::start_send` (`sender.rs`): `write_and_publish` the item into the
held cell with the remembered claimed id, then clear `current_cell`.  `none`
when the sender does not exist or holds no cell (the code `debug_assert!`s
the pointer is non-null).  Also returns the published id and index. -/
def startSend {T : Type} (w : World T) (s : Nat) (v : T) :
    Option (World T × Nat × Nat) :=
  match w.senders[s]? with
  | none => none
  | some sd =>
    match sd.currentCell with
    | none => none
    | some idx =>
      let wp := (cellAt w idx).write_and_publish v sd.claimedId
      some ({ w with
               buffer := w.buffer.set idx wp.1,
               dropLog := w.dropLog ++ wp.2.toList,
               senders := w.senders.set s
                 { sd with currentCell := none, ready := false } },
            sd.claimedId, idx)

/-- `NexusQ`/`Cell` teardown (`lib.rs`, `cell.rs`): when the last handle
drops, the buffer is dropped and each cell's resident `Option` payload is
dropped with it; never-written cells hold `none` and drop nothing. -/
def teardownDrops {T : Type} (w : World T) : List T :=
  w.buffer.filterMap Cell.value

/-- Iterated `Sender::send`: `some` exactly when every send returns `Ok`. -/
def sendAll {T : Type} (w : World T) : List T → Option (World T)
  | [] => some w
  | v :: rest =>
    match send w v with
    | .ok w' _ _ => sendAll w' rest
    | _ => none

/-- Iterated `Receiver::recv` on receiver `r`: `some` exactly when every call
returns a present payload without blocking. -/
def recvN {T : Type} (w : World T) (r : Nat) : Nat → Option (List T × World T)
  | 0 => some ([], w)
  | n + 1 =>
    match recv w r with
    | .ok (some v) w' =>
      match recvN w' r n with
      | some (vs, w2) => some (v :: vs, w2)
      | none => none
    | _ => none

/-- The ring length `make_channel` produces, when it succeeds. -/
def ringLenOf (size : Nat) : Option Nat :=
  match makeChannel Unit size with
  | .ok w => some w.buffer.length
  | .error _ => none

/-! ## The rounded ring size is the least power of two not below the request -/

theorem npotFuel_spec :
    ∀ f n, n ≤ f →
      (∃ k, npotFuel f n = 2 ^ k) ∧ n ≤ npotFuel f n ∧
        ∀ k, n ≤ 2 ^ k → npotFuel f n ≤ 2 ^ k := by
  intro f
  induction f with
  | zero =>
    intro n hn
    have hz : n = 0 := Nat.le_zero.mp hn
    subst hz
    exact ⟨⟨0, rfl⟩, Nat.zero_le _, fun k _ => Nat.one_le_two_pow⟩
  | succ f ih =>
    intro n hn
    by_cases h1 : n ≤ 1
    · simp only [npotFuel, if_pos h1]
      exact ⟨⟨0, rfl⟩, h1, fun k _ => Nat.one_le_two_pow⟩
    · have hrec : (n + 1) / 2 ≤ f := by omega
      obtain ⟨⟨j, hj⟩, hle, hmin⟩ := ih ((n + 1) / 2) hrec
      simp only [npotFuel, if_neg h1]
      refine ⟨⟨j + 1, by rw [hj, pow_succ, Nat.mul_comm]⟩, by omega, ?_⟩
      intro k hk
      have hk1 : 1 ≤ k := by
        rcases Nat.eq_zero_or_pos k with hk0 | hk0
        · subst hk0; simp at hk; omega
        · exact hk0
      have hpow : 2 ^ k = 2 * 2 ^ (k - 1) := by
        obtain ⟨m, rfl⟩ : ∃ m, k = m + 1 := ⟨k - 1, by omega⟩
        simp [pow_succ, Nat.mul_comm]
      have hhalf : (n + 1) / 2 ≤ 2 ^ (k - 1) := by omega
      have := hmin (k - 1) hhalf
      omega

theorem maybe_next_power_of_two_spec (n : Nat) :
    (∃ k, maybe_next_power_of_two n = 2 ^ k) ∧
      n ≤ maybe_next_power_of_two n ∧
      ∀ k, n ≤ 2 ^ k → maybe_next_power_of_two n ≤ 2 ^ k :=
  npotFuel_spec n n (Nat.le_refl n)

theorem maybe_next_power_of_two_big :
    maybe_next_power_of_two (2 ^ 62 + 1) = 2 ^ 63 := by
  obtain ⟨⟨k, hk⟩, hle, hmin⟩ := maybe_next_power_of_two_spec (2 ^ 62 + 1)
  have hub := hmin 63 (by norm_num)
  have hklb : 62 < k := by
    by_contra hcon
    have : 2 ^ k ≤ 2 ^ 62 := Nat.pow_le_pow_right (by norm_num) (by omega)
    omega
  have : 2 ^ 63 ≤ 2 ^ k := Nat.pow_le_pow_right (by norm_num) hklb
  omega

theorem initWorld_buffer_length (T : Type) (n : Nat) :
    (initWorld T n).buffer.length = n := by
  simp [initWorld]

/-- C5 — the construction contract of `make_channel`, amended: the size checks
are exactly as claimed and the ring length is the least power of two not below
the requested size; but that length is not capped at `isize::MAX` (see the
counterexample), so the claim's final parenthetical is dropped. -/
theorem c5_make_channel_contract (T : Type) (size : Nat) :
    (makeChannel T size = .error .BufferTooSmall ↔ size < 2) ∧
    (makeChannel T size = .error .BufferTooLarge ↔ ISIZE_MAX < size) ∧
    (2 ≤ size → size ≤ ISIZE_MAX →
      ∃ w, makeChannel T size = .ok w ∧
        w.buffer.length = maybe_next_power_of_two size ∧
        (∃ k, w.buffer.length = 2 ^ k) ∧
        size ≤ w.buffer.length ∧
        ∀ k, size ≤ 2 ^ k → w.buffer.length ≤ 2 ^ k) := by
  obtain ⟨hpow, hge, hmin⟩ := maybe_next_power_of_two_spec size
  refine ⟨?_, ?_, ?_⟩
  · constructor
    · intro h
      by_contra hcon
      simp [makeChannel, hcon] at h
      by_cases hbig : size > ISIZE_MAX <;> simp [hbig] at h
    · intro h
      simp [makeChannel, h]
  · constructor
    · intro h
      by_contra hcon
      by_cases hsmall : size < 2 <;> simp [makeChannel, hsmall, hcon] at h
    · intro h
      have hsmall : ¬size < 2 := by
        have : (2 : Nat) ≤ ISIZE_MAX := by norm_num [ISIZE_MAX]
        omega
      simp [makeChannel, hsmall, h]
  · intro h2 hM
    refine ⟨initWorld T (maybe_next_power_of_two size), ?_, ?_, ?_, ?_, ?_⟩
    · have hs : ¬size < 2 := by omega
      have hb : ¬size > ISIZE_MAX := by omega
      simp [makeChannel, hs, hb]
    · exact initWorld_buffer_length T _
    · rw [initWorld_buffer_length]; exact hpow
    · rw [initWorld_buffer_length]; exact hge
    · rw [initWorld_buffer_length]; exact hmin

/-- C5 — witness: the amended contract at concrete sizes 0, 1 and 4. -/
theorem c5_make_channel_contract_witness :
    makeChannel Unit 0 = .error .BufferTooSmall ∧
      makeChannel Unit 1 = .error .BufferTooSmall ∧
      ∃ w, makeChannel Unit 4 = .ok w ∧
        w.buffer.length = maybe_next_power_of_two 4 ∧
        (∃ k, w.buffer.length = 2 ^ k) ∧
        4 ≤ w.buffer.length ∧
        ∀ k, 4 ≤ 2 ^ k → w.buffer.length ≤ 2 ^ k :=
  ⟨(c5_make_channel_contract Unit 0).1.mpr (by norm_num),
   (c5_make_channel_contract Unit 1).1.mpr (by norm_num),
   (c5_make_channel_contract Unit 4).2.2 (by norm_num) (by norm_num [ISIZE_MAX])⟩

/-- C5 — counterexample to the claim as stated: requesting `2 ^ 62 + 1`
(which is at most `isize::MAX`, so the claim asserts the result never exceeds
`isize::MAX`) succeeds with a ring of length `2 ^ 63 > isize::MAX`. -/
theorem c5_counterexample :
    ringLenOf (2 ^ 62 + 1) = some (2 ^ 63) ∧ ISIZE_MAX < 2 ^ 63 ∧
      2 ^ 62 + 1 ≤ ISIZE_MAX := by
  refine ⟨?_, by norm_num [ISIZE_MAX], by norm_num [ISIZE_MAX]⟩
  have hs : ¬(2 ^ 62 + 1 : Nat) < 2 := by norm_num
  have hb : ¬(2 ^ 62 + 1 : Nat) > ISIZE_MAX := by norm_num [ISIZE_MAX]
  simp only [ringLenOf, makeChannel, if_neg hs, if_neg hb]
  simp [initWorld_buffer_length]
  rw [show (4611686018427387905 : Nat) = 2 ^ 62 + 1 by norm_num,
    maybe_next_power_of_two_big]
  norm_num

/-- C6 — every failing synchronous send returns the caller's value inside the
error: with no receivers all three sends report `Disconnected(Some v)` and
leave the world untouched; any other `try_send` failure is `Full(v)` and any
other `try_send_before` failure is `Timeout(v)`; a blocking `send` never
fails any other way. -/
theorem c6_send_errors_carry_value {T : Type} (w : World T) (v : T)
    (deadlinePassed : Bool) :
    (w.num_receivers = 0 →
      send w v = .err (.Disconnected (some v)) w ∧
      trySend w v = .err (.Disconnected (some v)) w ∧
      trySendBefore w v deadlinePassed = .err (.Disconnected (some v)) w) ∧
    (∀ e w', send w v = .err e w' → e = .Disconnected (some v)) ∧
    (∀ e w', trySend w v = .err e w' →
      e = .Disconnected (some v) ∨ e = .Full v) ∧
    (∀ e w', trySendBefore w v deadlinePassed = .err e w' →
      e = .Disconnected (some v) ∨ e = .Timeout v) := by
  refine ⟨fun h0 => ?_, ?_, ?_, ?_⟩
  · simp [send, trySend, trySendBefore, h0]
  · intro e w' h
    by_cases h0 : w.num_receivers = 0
    · simp [send, h0] at h
      exact h.1.symm
    · simp only [send, if_neg h0] at h
      match htail : w.tail with
      | none => rw [htail] at h; exact absurd h (by simp)
      | some idx =>
        rw [htail] at h
        by_cases hc : (cellAt w idx).read_counter = 0 <;> simp [hc] at h
  · intro e w' h
    by_cases h0 : w.num_receivers = 0
    · simp [trySend, h0] at h
      exact Or.inl h.1.symm
    · simp only [trySend, if_neg h0] at h
      match htail : w.tail with
      | none =>
        rw [htail] at h
        simp at h
        exact Or.inr h.1.symm
      | some idx =>
        rw [htail] at h
        by_cases hc : (cellAt w idx).read_counter = 0 <;> simp [hc] at h
        exact Or.inr h.1.symm
  · intro e w' h
    by_cases h0 : w.num_receivers = 0
    · simp [trySendBefore, h0] at h
      exact Or.inl h.1.symm
    · simp only [trySendBefore, if_neg h0] at h
      by_cases hd : deadlinePassed = true
      · simp [hd] at h
        exact Or.inr h.1.symm
      · simp only [if_neg hd] at h
        match htail : w.tail with
        | none =>
          rw [htail] at h
          simp at h
          exact Or.inr h.1.symm
        | some idx =>
          rw [htail] at h
          by_cases hc : (cellAt w idx).read_counter = 0 <;> simp [hc] at h
          exact Or.inr h.1.symm

/-- The size-2 channel world after its only receiver is dropped (used as the
concrete disconnected world below). -/
def discWorld : World Nat :=
  (dropReceiver ((makeChannel Nat 2).toOption.getD (initWorld Nat 0)) 0).getD
    (initWorld Nat 0)

/-- C6 — witness: after dropping the only receiver of a fresh size-2 channel,
all three sends report `Disconnected(Some 7)`. -/
theorem c6_send_errors_carry_value_witness :
    discWorld.num_receivers = 0 ∧
      send discWorld 7 = .err (.Disconnected (some 7)) discWorld ∧
      trySend discWorld 7 = .err (.Disconnected (some 7)) discWorld ∧
      trySendBefore discWorld 7 false =
        .err (.Disconnected (some 7)) discWorld :=
  ⟨by decide, (c6_send_errors_carry_value discWorld 7 false).1 (by decide)⟩

/-! ## Concrete end-to-end scenarios -/

/-- A placeholder world used as the `getD` default of the concrete scenario
stages; every stage below is proved to be reached, so it never surfaces. -/
def dummyWorld : World Nat := initWorld Nat 0

/-- The world one successful `recv` on receiver `r` leaves behind. -/
def recvWorld (w : World Nat) (r : Nat) : World Nat :=
  match recv w r with
  | .ok _ w' => w'
  | _ => dummyWorld

/-- C2 stage: fresh size-4 channel. -/
def c2w0 : World Nat := (makeChannel Nat 4).toOption.getD dummyWorld

/-- C2 stage: after cloning the receiver (before anything is sent). -/
def c2w1 : World Nat := (cloneReceiver c2w0 0).getD dummyWorld

/-- C2 stage: after sending 1, 2, 3. -/
def c2w2 : World Nat := (sendAll c2w1 [1, 2, 3]).getD dummyWorld

/-- C2 stages: the two receivers draining alternately. -/
def c2w3 : World Nat := recvWorld c2w2 0

def c2w4 : World Nat := recvWorld c2w3 1

def c2w5 : World Nat := recvWorld c2w4 0

def c2w6 : World Nat := recvWorld c2w5 1

def c2w7 : World Nat := recvWorld c2w6 0

def c2w8 : World Nat := recvWorld c2w7 1

/-- C2 — broadcast: one sender, two receivers (the second cloned before any
send); after sending `[1, 2, 3]`, the original receiver and the clone each
read `1, 2, 3` in that order — every send and every receive succeeds, so no
value is skipped or duplicated for either receiver. -/
theorem c2_broadcast_two_receivers :
    makeChannel Nat 4 = .ok c2w0 ∧
      cloneReceiver c2w0 0 = some c2w1 ∧
      sendAll c2w1 [1, 2, 3] = some c2w2 ∧
      recv c2w2 0 = .ok (some 1) c2w3 ∧
      recv c2w3 1 = .ok (some 1) c2w4 ∧
      recv c2w4 0 = .ok (some 2) c2w5 ∧
      recv c2w5 1 = .ok (some 2) c2w6 ∧
      recv c2w6 0 = .ok (some 3) c2w7 ∧
      recv c2w7 1 = .ok (some 3) c2w8 := by
  decide

/-- C7 stage: fresh size-4 channel. -/
def c7w0 : World Nat := (makeChannel Nat 4).toOption.getD dummyWorld

/-- C7 stage: after sending 1, 2, 3 — three sent-but-unread values. -/
def c7w3 : World Nat := (sendAll c7w0 [1, 2, 3]).getD dummyWorld

/-- C7 stage: after the receiver takes one value. -/
def c7w4 : World Nat := recvWorld c7w3 0

/-- C7 stage: after the then-successful `try_send`. -/
def c7w5 : World Nat :=
  match trySend c7w4 4 with
  | .ok w _ _ => w
  | _ => dummyWorld

/-- C7 — full-then-recovery: with 3 sent-but-unread values in a size-4
channel, `try_send` of a 4th returns `Full(4)` and returns the world exactly
unchanged (same `claimed`, same buffer, tail restored); after one `recv`, the
next `try_send` succeeds (with id 4 into index 0). -/
theorem c7_full_then_recovery :
    makeChannel Nat 4 = .ok c7w0 ∧
      sendAll c7w0 [1, 2, 3] = some c7w3 ∧
      trySend c7w3 4 = .err (.Full 4) c7w3 ∧
      recv c7w3 0 = .ok (some 1) c7w4 ∧
      trySend c7w4 4 = .ok c7w5 4 0 := by
  decide

/-- C9 stage: fresh size-4 channel. -/
def c9w0 : World Nat := (makeChannel Nat 4).toOption.getD dummyWorld

/-- C9 stage: after sending the three observed payloads. -/
def c9w1 : World Nat := (sendAll c9w0 [10, 20, 30]).getD dummyWorld

/-- C9 stage: after the receiver reads all three. -/
def c9w2 : World Nat :=
  match recvN c9w1 0 3 with
  | some (_, w) => w
  | none => dummyWorld

/-- C9 stage: after the receiver handle is dropped (the sender holds no
droppable channel state, so its drop does not touch the model). -/
def c9w3 : World Nat := (dropReceiver c9w2 0).getD dummyWorld

/-- C9 — drop accounting: send 3 distinct payloads on a size-4 channel,
receive all 3, then drop the receiver (and sender).  No payload was ever
overwritten (`dropLog = []`), teardown drops exactly the three payloads still
resident in their cells, once each, and the never-written cell 0 contributes
nothing — 3 drops in total. -/
theorem c9_drop_accounting :
    makeChannel Nat 4 = .ok c9w0 ∧
      sendAll c9w0 [10, 20, 30] = some c9w1 ∧
      recvN c9w1 0 3 = some ([10, 20, 30], c9w2) ∧
      dropReceiver c9w2 0 = some c9w3 ∧
      c9w3.dropLog = [] ∧
      teardownDrops c9w3 = [10, 20, 30] ∧
      (cellAt c9w3 0).value = none := by
  decide

/-- C4 stage: fresh size-4 channel. -/
def c4w0 : World Nat := (makeChannel Nat 4).toOption.getD dummyWorld

/-- C4 stage: an async sender's `poll_ready` has claimed id 1 (incrementing
`claimed` to 2) but `start_send` has not yet published into cell 1. -/
def c4w1 : World Nat :=
  match pollReady c4w0 0 with
  | .ready w => w
  | _ => dummyWorld

/-- C4 stage: the world `try_recv_batch` leaves behind at the failing input. -/
def c4w2 : World Nat :=
  match tryRecvBatch c4w1 0 1 with
  | some (_, _, w) => w
  | none => dummyWorld

/-- C4 — the failing input evaluated: after `poll_ready` claims id 1 without
publishing, `try_recv_batch(1)` attributes id 1 (= the receiver's cursor) to
cell 1, yet that cell's `current_id` is still the never-published sentinel —
the sentinel is not `< claimed`, so the step-back guard does not fire — and
the batch "reads" the empty payload (`none`; `Cell::read` is
`unwrap_unchecked`, and the code's own
`debug_assert_eq!(current_cell.get_published(), self.cursor + i)` fails). -/
theorem c4_batch_reads_unpublished_cell :
    makeChannel Nat 4 = .ok c4w0 ∧
      pollReady c4w0 0 = .ready c4w1 ∧
      c4w1.claimed = 2 ∧
      (cellAt c4w1 1).current_id = USIZE_MAX ∧
      ¬(cellAt c4w1 (fast_mod c4w1.claimed 4)).current_id < c4w1.claimed ∧
      tryRecvBatch c4w1 0 1 = some (1, [none], c4w2) ∧
      (cellAt c4w1 1).current_id ≠ 1 := by
  decide

/-- C3 stage: fresh size-4 channel. -/
def c3w0 : World Nat := (makeChannel Nat 4).toOption.getD dummyWorld

/-- C3 stage: after `poll_ready` returns `Ready` once (cell 1 taken, id 1
claimed). -/
def c3w1 : World Nat :=
  match pollReady c3w0 0 with
  | .ready w => w
  | _ => dummyWorld

/-- C3 stage: after `poll_ready` is polled again before `start_send`: the
code keeps the already-held cell 1 but claims a second id (2). -/
def c3w2 : World Nat :=
  match pollReady c3w1 0 with
  | .ready w => w
  | _ => dummyWorld

/-- C3 stage: after `start_send(99)`. -/
def c3w3 : World Nat :=
  match startSend c3w2 0 99 with
  | some (w, _, _) => w
  | none => dummyWorld

/-- C3 — counterexample to the claim as stated: `poll_ready` does not
remember that it already passed the write-safe check, so polling it again
after `Ready` (legal under the `Sink` contract) claims a second id for the
same held cell; the following `start_send` publishes its obtained id 2 into
cell index 1, not index `2 mod 4`, and the cell at `2 mod 4` is left
unpublished. -/
theorem c3_counterexample :
    makeChannel Nat 4 = .ok c3w0 ∧
      pollReady c3w0 0 = .ready c3w1 ∧
      pollReady c3w1 0 = .ready c3w2 ∧
      startSend c3w2 0 99 = some (c3w3, 2, 1) ∧
      fast_mod 2 c3w2.buffer.length ≠ 1 ∧
      (cellAt c3w3 1).current_id = 2 ∧
      (cellAt c3w3 (fast_mod 2 c3w3.buffer.length)).current_id ≠ 2 := by
  decide

/-! ## Interleaving semantics: one atomic step per public operation -/

/-- The observable part of one step: the id a step hands out by incrementing
`claimed` (if any) and the `(id, index)` of a `write_and_publish` it performs
(if any).  A synchronous send does both at once; `poll_ready` only claims;
`start_send` only publishes. -/
structure Ev where
  claim : Option Nat
  publish : Option (Nat × Nat)
  deriving Repr, DecidableEq

/-- A step with no claim and no publication. -/
def Ev.silent : Ev := { claim := none, publish := none }

/-- One atomic public operation on the channel, by any live handle.  `strict`
restricts the async sender to the usage discipline in which `poll_ready` is
not invoked again between returning `Ready` and the matching `start_send`
(the ghost `ready` flag records exactly that window); with `strict = false`
every code path is admitted.  `start_send` always requires a previously
successful `poll_ready` (the `Sink` contract, which the code `debug_assert!`s
by checking the held pointer is non-null). -/
inductive Step {T : Type} (strict : Bool) : World T → Ev → World T → Prop where
  | sendOk {w w' : World T} {v : T} {k i : Nat}
      (h : send w v = .ok w' k i) :
      Step strict w { claim := some k, publish := some (k, i) } w'
  | sendErr {w w' : World T} {v : T} {e : SendError T}
      (h : send w v = .err e w') : Step strict w Ev.silent w'
  | trySendOk {w w' : World T} {v : T} {k i : Nat}
      (h : trySend w v = .ok w' k i) :
      Step strict w { claim := some k, publish := some (k, i) } w'
  | trySendErr {w w' : World T} {v : T} {e : SendError T}
      (h : trySend w v = .err e w') : Step strict w Ev.silent w'
  | trySendBeforeOk {w w' : World T} {v : T} {d : Bool} {k i : Nat}
      (h : trySendBefore w v d = .ok w' k i) :
      Step strict w { claim := some k, publish := some (k, i) } w'
  | trySendBeforeErr {w w' : World T} {v : T} {d : Bool} {e : SendError T}
      (h : trySendBefore w v d = .err e w') : Step strict w Ev.silent w'
  | recvOk {w w' : World T} {r : Nat} {v : Option T}
      (h : recv w r = .ok v w') : Step strict w Ev.silent w'
  | tryRecvOk {w w' : World T} {r : Nat} {v : Option T}
      (h : tryRecv w r = .ok v w') : Step strict w Ev.silent w'
  | tryRecvErr {w w' : World T} {r : Nat} {e : RecvError}
      (h : tryRecv w r = .err e w') : Step strict w Ev.silent w'
  | tryRecvUntilOk {w w' : World T} {r : Nat} {v : Option T}
      (h : tryRecvUntil w r = .ok v w') : Step strict w Ev.silent w'
  | tryRecvUntilErr {w w' : World T} {r : Nat} {e : RecvError}
      (h : tryRecvUntil w r = .err e w') : Step strict w Ev.silent w'
  | pollNextOk {w w' : World T} {r : Nat} {v : Option T}
      (h : pollNext w r = .ok v w') : Step strict w Ev.silent w'
  | tryRecvBatchStep {w w' : World T} {r m cnt : Nat} {vs : List (Option T)}
      (h : tryRecvBatch w r m = some (cnt, vs, w')) :
      Step strict w Ev.silent w'
  | cloneReceiverStep {w w' : World T} {r : Nat}
      (h : cloneReceiver w r = some w') : Step strict w Ev.silent w'
  | dropReceiverStep {w w' : World T} {r : Nat}
      (h : dropReceiver w r = some w') : Step strict w Ev.silent w'
  | newSenderStep (w : World T) : Step strict w Ev.silent (newSender w)
  | pollReadyReady {w w' : World T} {s : Nat} {sd : Snd}
      (hs : w.senders[s]? = some sd)
      (hstrict : strict = true → sd.ready = false)
      (h : pollReady w s = .ready w') :
      Step strict w { claim := some w.claimed, publish := none } w'
  | pollReadyPending {w w' : World T} {s : Nat} {sd : Snd}
      (hs : w.senders[s]? = some sd)
      (hstrict : strict = true → sd.ready = false)
      (h : pollReady w s = .pending w') : Step strict w Ev.silent w'
  | pollReadyDisc {w w' : World T} {s : Nat}
      (h : pollReady w s = .disconnected w') : Step strict w Ev.silent w'
  | startSendStep {w w' : World T} {s k i : Nat} {sd : Snd} {v : T}
      (hs : w.senders[s]? = some sd) (hready : sd.ready = true)
      (h : startSend w s v = some (w', k, i)) :
      Step strict w { claim := none, publish := some (k, i) } w'

/-- Some step, with any label. -/
def StepAny {T : Type} (strict : Bool) (w w' : World T) : Prop :=
  ∃ e, Step strict w e w'

/-- Reachability in any number of steps. -/
def Star {T : Type} (strict : Bool) : World T → World T → Prop :=
  Relation.ReflTransGen (StepAny strict)

/-! ## List bookkeeping helpers -/

theorem countP_set_add {α : Type} (p : α → Bool) :
    ∀ (l : List α) (r : Nat) (a : α) (hr : r < l.length),
      (l.set r a).countP p + (if p (l.get ⟨r, hr⟩) then 1 else 0) =
        l.countP p + (if p a then 1 else 0) := by
  intro l
  induction l with
  | nil => intro r a hr; simp at hr
  | cons x xs ih =>
    intro r a hr
    cases r with
    | zero =>
      have hx : (x :: xs).get ⟨0, hr⟩ = x := rfl
      simp only [List.set_cons_zero, List.countP_cons, hx]
      omega
    | succ r =>
      have hr' : r < xs.length := by simpa using hr
      have := ih r a hr'
      simp only [List.set_cons_succ, List.countP_cons, List.get_cons_succ]
      omega

theorem countP_eraseIdx_add {α : Type} (p : α → Bool) :
    ∀ (l : List α) (r : Nat) (hr : r < l.length),
      (l.eraseIdx r).countP p + (if p (l.get ⟨r, hr⟩) then 1 else 0) =
        l.countP p := by
  intro l
  induction l with
  | nil => intro r hr; simp at hr
  | cons x xs ih =>
    intro r hr
    cases r with
    | zero =>
      have hx : (x :: xs).get ⟨0, hr⟩ = x := rfl
      simp only [List.eraseIdx_cons_zero, List.countP_cons, hx]
    | succ r =>
      have hr' : r < xs.length := by simpa using hr
      have := ih r hr'
      simp only [List.eraseIdx_cons_succ, List.countP_cons, List.get_cons_succ]
      omega

theorem cellAt_set {T : Type} (w : World T) (i j : Nat) (c : Cell T) :
    cellAt (setCell w i c) j
      = if j = i ∧ i < w.buffer.length then c else cellAt w j := by
  simp only [cellAt, setCell, List.getD_eq_getElem?_getD, List.getElem?_set]
  by_cases hij : i = j
  · subst hij
    by_cases hlen : i < w.buffer.length
    · simp [hlen]
    · rw [if_pos rfl, if_neg hlen, if_neg (fun hc => hlen hc.2),
        List.getElem?_eq_none (Nat.le_of_not_lt hlen)]
  · have hji : ¬(j = i ∧ i < w.buffer.length) := fun hc => hij hc.1.symm
    rw [if_neg hij, if_neg hji]

theorem setCell_receivers {T : Type} (w : World T) (i : Nat) (c : Cell T) :
    (setCell w i c).receivers = w.receivers := rfl

theorem setCell_length {T : Type} (w : World T) (i : Nat) (c : Cell T) :
    (setCell w i c).buffer.length = w.buffer.length := by
  simp [setCell]

/-! ## Shape lemmas: what each operation result says about the state -/

theorem send_ok_shape {T : Type} {w w' : World T} {v : T} {k i : Nat}
    (h : send w v = .ok w' k i) :
    w.num_receivers ≠ 0 ∧ w.tail = some i ∧
      (cellAt w i).read_counter = 0 ∧ k = w.claimed ∧
      w' = (sendSucceed { w with tail := none } i v).1 := by
  by_cases h0 : w.num_receivers = 0
  · simp [send, h0] at h
  · simp only [send, if_neg h0] at h
    match htail : w.tail with
    | none => rw [htail] at h; exact absurd h (by simp)
    | some idx =>
      rw [htail] at h
      by_cases hc : (cellAt w idx).read_counter = 0
      · simp only [if_pos hc, SendRes.ok.injEq] at h
        obtain ⟨hw, hk, hi⟩ := h
        have hi2 : i = idx := hi.symm
        subst hi2
        exact ⟨h0, rfl, hc, hk.symm, hw.symm⟩
      · simp [hc] at h

theorem trySend_ok_shape {T : Type} {w w' : World T} {v : T} {k i : Nat}
    (h : trySend w v = .ok w' k i) :
    w.num_receivers ≠ 0 ∧ w.tail = some i ∧
      (cellAt w i).read_counter = 0 ∧ k = w.claimed ∧
      w' = (sendSucceed { w with tail := none } i v).1 := by
  by_cases h0 : w.num_receivers = 0
  · simp [trySend, h0] at h
  · simp only [trySend, if_neg h0] at h
    match htail : w.tail with
    | none => rw [htail] at h; exact absurd h (by simp)
    | some idx =>
      rw [htail] at h
      by_cases hc : (cellAt w idx).read_counter = 0
      · simp only [if_pos hc, SendRes.ok.injEq] at h
        obtain ⟨hw, hk, hi⟩ := h
        have hi2 : i = idx := hi.symm
        subst hi2
        exact ⟨h0, rfl, hc, hk.symm, hw.symm⟩
      · simp [hc] at h

theorem trySendBefore_ok_shape {T : Type} {w w' : World T} {v : T} {d : Bool}
    {k i : Nat} (h : trySendBefore w v d = .ok w' k i) :
    w.num_receivers ≠ 0 ∧ w.tail = some i ∧
      (cellAt w i).read_counter = 0 ∧ k = w.claimed ∧
      w' = (sendSucceed { w with tail := none } i v).1 := by
  by_cases h0 : w.num_receivers = 0
  · simp [trySendBefore, h0] at h
  · by_cases hd : d = true
    · simp [trySendBefore, h0, hd] at h
    · simp only [trySendBefore, if_neg h0, if_neg hd] at h
      match htail : w.tail with
      | none => rw [htail] at h; exact absurd h (by simp)
      | some idx =>
        rw [htail] at h
        by_cases hc : (cellAt w idx).read_counter = 0
        · simp only [if_pos hc, SendRes.ok.injEq] at h
          obtain ⟨hw, hk, hi⟩ := h
          have hi2 : i = idx := hi.symm
          subst hi2
          exact ⟨h0, rfl, hc, hk.symm, hw.symm⟩
        · simp [hc] at h

theorem send_err_eq {T : Type} {w w' : World T} {v : T} {e : SendError T}
    (h : send w v = .err e w') : w' = w := by
  by_cases h0 : w.num_receivers = 0
  · simp [send, h0] at h
    exact h.2.symm
  · simp only [send, if_neg h0] at h
    match htail : w.tail with
    | none => rw [htail] at h; exact absurd h (by simp)
    | some idx =>
      rw [htail] at h
      by_cases hc : (cellAt w idx).read_counter = 0 <;> simp [hc] at h

theorem trySend_err_eq {T : Type} {w w' : World T} {v : T} {e : SendError T}
    (h : trySend w v = .err e w') : w' = w := by
  by_cases h0 : w.num_receivers = 0
  · simp [trySend, h0] at h
    exact h.2.symm
  · simp only [trySend, if_neg h0] at h
    match htail : w.tail with
    | none =>
      rw [htail] at h
      simp at h
      exact h.2.symm
    | some idx =>
      rw [htail] at h
      by_cases hc : (cellAt w idx).read_counter = 0 <;> simp [hc] at h
      have h2 : w' = { w with tail := some idx } := h.2.symm
      rw [h2, ← htail]

theorem trySendBefore_err_eq {T : Type} {w w' : World T} {v : T} {d : Bool}
    {e : SendError T} (h : trySendBefore w v d = .err e w') : w' = w := by
  by_cases h0 : w.num_receivers = 0
  · simp [trySendBefore, h0] at h
    exact h.2.symm
  · by_cases hd : d = true
    · simp [trySendBefore, h0, hd] at h
      exact h.2.symm
    · simp only [trySendBefore, if_neg h0, if_neg hd] at h
      match htail : w.tail with
      | none =>
        rw [htail] at h
        simp at h
        exact h.2.symm
      | some idx =>
        rw [htail] at h
        by_cases hc : (cellAt w idx).read_counter = 0 <;> simp [hc] at h
        have h2 : w' = { w with tail := some idx } := h.2.symm
        rw [h2, ← htail]

theorem recv_ok_shape {T : Type} {w w' : World T} {r : Nat} {v : Option T}
    (h : recv w r = .ok v w') :
    ∃ rc, w.receivers[r]? = some rc ∧
      (cellAt w (fast_mod rc.cursor w.buffer.length)).current_id = rc.cursor ∧
      v = (cellAt w (fast_mod rc.cursor w.buffer.length)).value ∧
      w' = advanceReceiver w r rc (rc.cursor + 1)
        (fast_mod rc.cursor w.buffer.length) := by
  match hrc : w.receivers[r]? with
  | none => simp [recv, hrc] at h
  | some rc =>
    simp only [recv, hrc] at h
    by_cases hid :
        (cellAt w (fast_mod rc.cursor w.buffer.length)).current_id = rc.cursor
    · simp only [if_pos hid, RecvRes.ok.injEq] at h
      exact ⟨rc, rfl, hid, h.1.symm, h.2.symm⟩
    · simp [hid] at h

theorem tryRecv_ok_shape {T : Type} {w w' : World T} {r : Nat} {v : Option T}
    (h : tryRecv w r = .ok v w') :
    ∃ rc, w.receivers[r]? = some rc ∧
      (cellAt w (fast_mod rc.cursor w.buffer.length)).current_id = rc.cursor ∧
      v = (cellAt w (fast_mod rc.cursor w.buffer.length)).value ∧
      w' = advanceReceiver w r rc (rc.cursor + 1)
        (fast_mod rc.cursor w.buffer.length) := by
  match hrc : w.receivers[r]? with
  | none => simp [tryRecv, hrc] at h
  | some rc =>
    simp only [tryRecv, hrc] at h
    by_cases hid :
        (cellAt w (fast_mod rc.cursor w.buffer.length)).current_id = rc.cursor
    · simp only [if_pos hid, RecvRes.ok.injEq] at h
      exact ⟨rc, rfl, hid, h.1.symm, h.2.symm⟩
    · simp [hid] at h

theorem tryRecvUntil_ok_shape {T : Type} {w w' : World T} {r : Nat}
    {v : Option T} (h : tryRecvUntil w r = .ok v w') :
    ∃ rc, w.receivers[r]? = some rc ∧
      (cellAt w (fast_mod rc.cursor w.buffer.length)).current_id = rc.cursor ∧
      v = (cellAt w (fast_mod rc.cursor w.buffer.length)).value ∧
      w' = advanceReceiver w r rc (rc.cursor + 1)
        (fast_mod rc.cursor w.buffer.length) := by
  match hrc : w.receivers[r]? with
  | none => simp [tryRecvUntil, hrc] at h
  | some rc =>
    simp only [tryRecvUntil, hrc] at h
    by_cases hid :
        (cellAt w (fast_mod rc.cursor w.buffer.length)).current_id = rc.cursor
    · simp only [if_pos hid, RecvRes.ok.injEq] at h
      exact ⟨rc, rfl, hid, h.1.symm, h.2.symm⟩
    · simp [hid] at h

theorem pollNext_ok_shape {T : Type} {w w' : World T} {r : Nat} {v : Option T}
    (h : pollNext w r = .ok v w') :
    ∃ rc, w.receivers[r]? = some rc ∧
      (cellAt w (fast_mod rc.cursor w.buffer.length)).current_id = rc.cursor ∧
      v = (cellAt w (fast_mod rc.cursor w.buffer.length)).value ∧
      w' = advanceReceiver w r rc (rc.cursor + 1)
        (fast_mod rc.cursor w.buffer.length) := by
  match hrc : w.receivers[r]? with
  | none => simp [pollNext, hrc] at h
  | some rc =>
    simp only [pollNext, hrc] at h
    by_cases hid :
        (cellAt w (fast_mod rc.cursor w.buffer.length)).current_id = rc.cursor
    · simp only [if_pos hid, RecvRes.ok.injEq] at h
      exact ⟨rc, rfl, hid, h.1.symm, h.2.symm⟩
    · simp [hid] at h

theorem tryRecv_err_eq {T : Type} {w w' : World T} {r : Nat} {e : RecvError}
    (h : tryRecv w r = .err e w') : w' = w := by
  match hrc : w.receivers[r]? with
  | none => simp [tryRecv, hrc] at h
  | some rc =>
    simp only [tryRecv, hrc] at h
    by_cases hid :
        (cellAt w (fast_mod rc.cursor w.buffer.length)).current_id = rc.cursor
    · simp [hid] at h
    · simp [hid] at h
      exact h.2.symm

theorem tryRecvUntil_err_eq {T : Type} {w w' : World T} {r : Nat}
    {e : RecvError} (h : tryRecvUntil w r = .err e w') : w' = w := by
  match hrc : w.receivers[r]? with
  | none => simp [tryRecvUntil, hrc] at h
  | some rc =>
    simp only [tryRecvUntil, hrc] at h
    by_cases hid :
        (cellAt w (fast_mod rc.cursor w.buffer.length)).current_id = rc.cursor
    · simp [hid] at h
    · simp [hid] at h
      exact h.2.symm

theorem tryRecvBatch_shape {T : Type} {w w' : World T} {r m cnt : Nat}
    {vs : List (Option T)} (h : tryRecvBatch w r m = some (cnt, vs, w')) :
    w' = w ∨
      ∃ rc numToRead, w.receivers[r]? = some rc ∧ 2 ≤ w.buffer.length ∧
        1 ≤ numToRead ∧
        w' = advanceReceiver w r rc (rc.cursor + numToRead)
          (fast_mod (rc.cursor + numToRead - 1) w.buffer.length) := by
  match hrc : w.receivers[r]? with
  | none => simp [tryRecvBatch, hrc] at h
  | some rc =>
    simp only [tryRecvBatch, hrc] at h
    by_cases hm : min m (w.buffer.length - 1) = 0
    · simp only [if_pos hm, Option.some.injEq, Prod.mk.injEq] at h
      exact Or.inl h.2.2.symm
    · simp only [if_neg hm] at h
      set claimed1 :=
        if (cellAt w (fast_mod w.claimed w.buffer.length)).current_id
            < w.claimed
        then w.claimed - 1 else w.claimed with hc1
      by_cases hle : claimed1 ≤ rc.cursor
      · simp only [if_pos hle, Option.some.injEq, Prod.mk.injEq] at h
        exact Or.inl h.2.2.symm
      · simp only [if_neg hle, Option.some.injEq, Prod.mk.injEq] at h
        refine Or.inr ⟨rc, min (claimed1 - rc.cursor) (min m (w.buffer.length - 1)),
          rfl, ?_, ?_, h.2.2.symm⟩
        · omega
        · omega

theorem cloneReceiver_shape {T : Type} {w w' : World T} {r : Nat}
    (h : cloneReceiver w r = some w') :
    ∃ rc, w.receivers[r]? = some rc ∧
      w' = { modifyCell w rc.prev Cell.move_to with
              num_receivers := w.num_receivers + 1,
              receivers := w.receivers ++ [rc] } := by
  match hrc : w.receivers[r]? with
  | none => simp [cloneReceiver, hrc] at h
  | some rc =>
    simp only [cloneReceiver, hrc, Option.some.injEq] at h
    exact ⟨rc, rfl, h.symm⟩

theorem dropReceiver_shape {T : Type} {w w' : World T} {r : Nat}
    (h : dropReceiver w r = some w') :
    ∃ rc, w.receivers[r]? = some rc ∧
      w' = { modifyCell { w with num_receivers := w.num_receivers - 1 }
              rc.prev Cell.move_from with
              receivers := w.receivers.eraseIdx r } := by
  match hrc : w.receivers[r]? with
  | none => simp [dropReceiver, hrc] at h
  | some rc =>
    simp only [dropReceiver, hrc, Option.some.injEq] at h
    exact ⟨rc, rfl, h.symm⟩

theorem pollReady_ready_shape {T : Type} {w w' : World T} {s : Nat}
    (h : pollReady w s = .ready w') :
    ∃ sd idx, w.senders[s]? = some sd ∧ w.num_receivers ≠ 0 ∧
      (cellAt w idx).read_counter = 0 ∧
      (sd.currentCell = some idx ∨ (sd.currentCell = none ∧ w.tail = some idx)) ∧
      w' = { w with
              claimed := w.claimed + 1,
              tail := some (fast_mod (w.claimed + 1) w.buffer.length),
              senders := w.senders.set s
                { currentCell := some idx, claimedId := w.claimed,
                  ready := true } } := by
  match hsd : w.senders[s]? with
  | none => simp [pollReady, hsd] at h
  | some sd =>
    have hslen : s < w.senders.length := (List.getElem?_eq_some_iff.mp hsd).1
    simp only [pollReady, hsd] at h
    by_cases h0 : w.num_receivers = 0
    · simp [h0] at h
    · simp only [if_neg h0] at h
      match hcc : sd.currentCell with
      | some idx =>
        rw [hcc] at h
        by_cases hrc : (cellAt w idx).read_counter = 0
        · simp only [pollReadyFinish, if_pos hrc, hsd, PollRes.ready.injEq] at h
          refine ⟨sd, idx, rfl, h0, hrc, Or.inl hcc, ?_⟩
          rw [← h, hcc]
        · simp only [pollReadyFinish, if_neg hrc] at h
          exact absurd h (by simp)
      | none =>
        rw [hcc] at h
        match htail : w.tail with
        | none => rw [htail] at h; exact absurd h (by simp)
        | some idx =>
          rw [htail] at h
          have hca : cellAt { w with
              tail := none,
              senders := w.senders.set s { sd with currentCell := some idx } }
              idx = cellAt w idx := rfl
          have hset : ({ w with
              tail := none,
              senders := w.senders.set s
                { sd with currentCell := some idx } } : World T).senders[s]?
              = some { sd with currentCell := some idx } := by
            simp only []
            rw [List.getElem?_set]
            simp [hslen]
          by_cases hrc : (cellAt w idx).read_counter = 0
          · simp only [pollReadyFinish, hca, if_pos hrc, hset,
              PollRes.ready.injEq] at h
            refine ⟨sd, idx, rfl, h0, hrc, Or.inr ⟨hcc, rfl⟩, ?_⟩
            rw [← h]
            simp [List.set_set]
          · simp only [pollReadyFinish, hca, if_neg hrc] at h
            exact absurd h (by simp)

theorem pollReady_pending_shape {T : Type} {w w' : World T} {s : Nat}
    (h : pollReady w s = .pending w') :
    w' = w ∨
      ∃ sd idx, w.senders[s]? = some sd ∧ w.num_receivers ≠ 0 ∧
        sd.currentCell = none ∧ w.tail = some idx ∧
        (cellAt w idx).read_counter ≠ 0 ∧
        w' = { w with
                tail := none,
                senders := w.senders.set s
                  { sd with currentCell := some idx } } := by
  match hsd : w.senders[s]? with
  | none => simp [pollReady, hsd] at h
  | some sd =>
    have hslen : s < w.senders.length := (List.getElem?_eq_some_iff.mp hsd).1
    simp only [pollReady, hsd] at h
    by_cases h0 : w.num_receivers = 0
    · simp [h0] at h
    · simp only [if_neg h0] at h
      match hcc : sd.currentCell with
      | some idx =>
        rw [hcc] at h
        by_cases hrc : (cellAt w idx).read_counter = 0
        · simp only [pollReadyFinish, if_pos hrc, hsd] at h
          exact absurd h (by simp)
        · simp only [pollReadyFinish, if_neg hrc, PollRes.pending.injEq] at h
          exact Or.inl h.symm
      | none =>
        rw [hcc] at h
        match htail : w.tail with
        | none =>
          rw [htail] at h
          simp only [PollRes.pending.injEq] at h
          exact Or.inl h.symm
        | some idx =>
          rw [htail] at h
          have hca : cellAt { w with
              tail := none,
              senders := w.senders.set s { sd with currentCell := some idx } }
              idx = cellAt w idx := rfl
          have hset : ({ w with
              tail := none,
              senders := w.senders.set s
                { sd with currentCell := some idx } } : World T).senders[s]?
              = some { sd with currentCell := some idx } := by
            simp only []
            rw [List.getElem?_set]
            simp [hslen]
          by_cases hrc : (cellAt w idx).read_counter = 0
          · simp only [pollReadyFinish, hca, if_pos hrc, hset] at h
            exact absurd h (by simp)
          · simp only [pollReadyFinish, hca, if_neg hrc,
              PollRes.pending.injEq] at h
            exact Or.inr ⟨sd, idx, rfl, h0, hcc, rfl, hrc, h.symm⟩

theorem pollReady_disconnected_eq {T : Type} {w w' : World T} {s : Nat}
    (h : pollReady w s = .disconnected w') : w' = w := by
  match hsd : w.senders[s]? with
  | none => simp [pollReady, hsd] at h
  | some sd =>
    have hslen : s < w.senders.length := (List.getElem?_eq_some_iff.mp hsd).1
    simp only [pollReady, hsd] at h
    by_cases h0 : w.num_receivers = 0
    · simp only [if_pos h0, PollRes.disconnected.injEq] at h
      exact h.symm
    · simp only [if_neg h0] at h
      match hcc : sd.currentCell with
      | some idx =>
        rw [hcc] at h
        by_cases hrc : (cellAt w idx).read_counter = 0
        · simp only [pollReadyFinish, if_pos hrc, hsd] at h
          exact absurd h (by simp)
        · simp only [pollReadyFinish, if_neg hrc] at h
          exact absurd h (by simp)
      | none =>
        rw [hcc] at h
        match htail : w.tail with
        | none => rw [htail] at h; exact absurd h (by simp)
        | some idx =>
          rw [htail] at h
          have hca : cellAt { w with
              tail := none,
              senders := w.senders.set s { sd with currentCell := some idx } }
              idx = cellAt w idx := rfl
          have hset : ({ w with
              tail := none,
              senders := w.senders.set s
                { sd with currentCell := some idx } } : World T).senders[s]?
              = some { sd with currentCell := some idx } := by
            simp only []
            rw [List.getElem?_set]
            simp [hslen]
          by_cases hrc : (cellAt w idx).read_counter = 0
          · simp only [pollReadyFinish, hca, if_pos hrc, hset] at h
            exact absurd h (by simp)
          · simp only [pollReadyFinish, hca, if_neg hrc] at h
            exact absurd h (by simp)


theorem startSend_shape {T : Type} {w w' : World T} {s k i : Nat} {v : T}
    (h : startSend w s v = some (w', k, i)) :
    ∃ sd, w.senders[s]? = some sd ∧ sd.currentCell = some i ∧
      k = sd.claimedId ∧
      w' = { w with
              buffer := w.buffer.set i
                ((cellAt w i).write_and_publish v sd.claimedId).1,
              dropLog := w.dropLog ++
                ((cellAt w i).write_and_publish v sd.claimedId).2.toList,
              senders := w.senders.set s
                { sd with currentCell := none, ready := false } } := by
  match hsd : w.senders[s]? with
  | none => simp [startSend, hsd] at h
  | some sd =>
    simp only [startSend, hsd] at h
    match hcc : sd.currentCell with
    | none => rw [hcc] at h; exact absurd h (by simp)
    | some idx =>
      rw [hcc] at h
      simp only [Option.some.injEq, Prod.mk.injEq] at h
      obtain ⟨hw, hk, hi⟩ := h
      have hi2 : i = idx := hi.symm
      subst hi2
      exact ⟨sd, rfl, hcc, hk.symm, hw.symm⟩

/-! ## The read-counter census invariant -/

/-- The census invariant: `num_receivers` counts the live receiver handles,
every live handle's `previous_cell_index` is in bounds, and each cell's
`read_counter` is exactly the number of live receivers anchored on it. -/
def ReadInv {T : Type} (w : World T) : Prop :=
  w.num_receivers = w.receivers.length ∧
  (∀ rc ∈ w.receivers, rc.prev < w.buffer.length) ∧
  ∀ j, j < w.buffer.length →
    (cellAt w j).read_counter =
      w.receivers.countP (fun rc => rc.prev == j)

theorem initWorld_readInv (T : Type) (n : Nat) (hn : 1 ≤ n) :
    ReadInv (initWorld T n) := by
  refine ⟨rfl, ?_, ?_⟩
  · intro rc hrc
    simp only [initWorld, List.mem_singleton] at hrc
    subst hrc
    simpa [initWorld] using hn
  · intro j hj
    simp only [initWorld, List.length_set, List.length_replicate] at hj
    by_cases hj0 : j = 0
    · subst hj0
      simp [initWorld, cellAt, List.getD_eq_getElem?_getD, List.getElem?_set,
        hj, Cell.move_to, Cell.new, List.countP_cons]
    · simp [initWorld, cellAt, List.getD_eq_getElem?_getD, List.getElem?_set,
        hj, hj0, Cell.new, List.countP_cons, Ne.symm hj0,
        List.getElem?_replicate]

theorem advanceReceiver_readInv {T : Type} {w : World T} {r : Nat} {rc : Rcv}
    {nc np : Nat} (hinv : ReadInv w) (hrc : w.receivers[r]? = some rc)
    (hnp : np < w.buffer.length) :
    ReadInv (advanceReceiver w r rc nc np) := by
  obtain ⟨hnum, hbound, hcount⟩ := hinv
  obtain ⟨hrlen, hrget⟩ := List.getElem?_eq_some_iff.mp hrc
  have hmemrc : rc ∈ w.receivers := by
    rw [← hrget]; exact List.getElem_mem hrlen
  have hprev_lt : rc.prev < w.buffer.length := hbound rc hmemrc
  have hlen_eq : (advanceReceiver w r rc nc np).buffer.length
      = w.buffer.length := by
    simp [advanceReceiver, modifyCell, setCell]
  have hrecv_eq : (advanceReceiver w r rc nc np).receivers
      = w.receivers.set r { cursor := nc, prev := np } := rfl
  refine ⟨?_, ?_, ?_⟩
  · show w.num_receivers = _
    rw [hrecv_eq, List.length_set]
    exact hnum
  · intro rc' hmem
    rw [hrecv_eq] at hmem
    rw [hlen_eq]
    rcases List.mem_or_eq_of_mem_set hmem with hold | hnew
    · exact hbound rc' hold
    · subst hnew
      exact hnp
  · intro j hj
    rw [hlen_eq] at hj
    -- the cell counter after the move_to / move_from pair
    have e1 : cellAt (advanceReceiver w r rc nc np) j
        = cellAt (setCell (modifyCell w np Cell.move_to) rc.prev
            (Cell.move_from (cellAt (modifyCell w np Cell.move_to) rc.prev)))
            j := rfl
    have e2 : ∀ jj, cellAt (modifyCell w np Cell.move_to) jj
        = if jj = np ∧ np < w.buffer.length
          then Cell.move_to (cellAt w np) else cellAt w jj := by
      intro jj
      simp only [modifyCell]
      exact cellAt_set w np jj _
    have hmlen : (modifyCell w np Cell.move_to).buffer.length
        = w.buffer.length := by
      simp [modifyCell, setCell]
    rw [e1, cellAt_set, hmlen, e2, e2]
    -- the receiver census after the handle update
    have hcset := countP_set_add (fun rc' => rc'.prev == j) w.receivers r
      { cursor := nc, prev := np } hrlen
    have hgetr : w.receivers.get ⟨r, hrlen⟩ = rc := hrget
    rw [hgetr] at hcset
    rw [hrecv_eq]
    have hold_j := hcount j hj
    have hc_np := hcount np hnp
    have hc_prev := hcount rc.prev hprev_lt
    have hone : 1 ≤ w.receivers.countP (fun rc' => rc'.prev == rc.prev) := by
      refine List.countP_pos_iff.mpr ⟨rc, hmemrc, ?_⟩
      simp
    simp only [beq_iff_eq] at hcset hold_j hc_np hc_prev hone ⊢
    by_cases hjp : j = rc.prev
    · subst hjp
      by_cases hpn : rc.prev = np
      · have hpn' : np = rc.prev := hpn.symm
        subst hpn'
        rw [if_pos ⟨rfl, hprev_lt⟩, if_pos ⟨rfl, hnp⟩]
        rw [if_pos rfl] at hcset
        simp only [Cell.move_from, Cell.move_to]
        omega
      · rw [if_pos ⟨rfl, hprev_lt⟩, if_neg (fun hc => hpn hc.1)]
        rw [if_pos rfl, if_neg (fun hc => hpn hc.symm)] at hcset
        simp only [Cell.move_from]
        omega
    · rw [if_neg (fun hc => hjp hc.1)]
      by_cases hjn : j = np
      · subst hjn
        rw [if_pos ⟨rfl, hnp⟩]
        rw [if_neg (fun hc => hjp hc.symm), if_pos rfl] at hcset
        simp only [Cell.move_to]
        omega
      · rw [if_neg (fun hc => hjn hc.1)]
        rw [if_neg (fun hc => hjp hc.symm), if_neg (fun hc => hjn hc.symm)]
          at hcset
        omega

theorem readInv_of_fields {T : Type} {w w' : World T}
    (hb : ∀ j, (cellAt w' j).read_counter = (cellAt w j).read_counter)
    (hlen : w'.buffer.length = w.buffer.length)
    (hn : w'.num_receivers = w.num_receivers)
    (hr : w'.receivers = w.receivers) (hinv : ReadInv w) : ReadInv w' := by
  obtain ⟨hnum, hbound, hcount⟩ := hinv
  refine ⟨by rw [hn, hr]; exact hnum, ?_, ?_⟩
  · intro rc hmem
    rw [hr] at hmem
    rw [hlen]
    exact hbound rc hmem
  · intro j hj
    rw [hlen] at hj
    rw [hb j, hr]
    exact hcount j hj

theorem counter_after_set {T : Type} (w : World T) (i : Nat) (c : Cell T)
    (hc : c.read_counter = (cellAt w i).read_counter) (j : Nat) :
    ((w.buffer.set i c).getD j (Cell.new T)).read_counter
      = (cellAt w j).read_counter := by
  simp only [cellAt, List.getD_eq_getElem?_getD, List.getElem?_set]
  by_cases hij : i = j
  · subst hij
    by_cases hlen : i < w.buffer.length
    · simpa [hlen, cellAt, List.getD_eq_getElem?_getD] using hc
    · rw [if_pos rfl, if_neg hlen, List.getElem?_eq_none (Nat.le_of_not_lt hlen)]
  · simp [hij]

theorem sendSucceed_readInv {T : Type} {w : World T} (i : Nat) (v : T)
    (hinv : ReadInv w) :
    ReadInv (sendSucceed { w with tail := none } i v).1 := by
  refine @readInv_of_fields T w
    ((sendSucceed { w with tail := none } i v).1) ?_ ?_ rfl rfl hinv
  · intro j
    show ((w.buffer.set i
        ((cellAt w i).write_and_publish v w.claimed).1).getD j
        (Cell.new T)).read_counter = (cellAt w j).read_counter
    exact counter_after_set w i
      ((cellAt w i).write_and_publish v w.claimed).1 rfl j
  · simp [sendSucceed]

theorem cloneReceiver_readInv {T : Type} {w w' : World T} {r : Nat}
    (h : cloneReceiver w r = some w') (hinv : ReadInv w) : ReadInv w' := by
  obtain ⟨rc, hrc, hw⟩ := cloneReceiver_shape h
  subst hw
  obtain ⟨hnum, hbound, hcount⟩ := hinv
  obtain ⟨hrlen, hrget⟩ := List.getElem?_eq_some_iff.mp hrc
  have hmemrc : rc ∈ w.receivers := by
    rw [← hrget]; exact List.getElem_mem hrlen
  have hprev_lt : rc.prev < w.buffer.length := hbound rc hmemrc
  have hlen : ({ modifyCell w rc.prev Cell.move_to with
      num_receivers := w.num_receivers + 1,
      receivers := w.receivers ++ [rc] } : World T).buffer.length
      = w.buffer.length := by
    simp [modifyCell, setCell]
  refine ⟨?_, ?_, ?_⟩
  · show w.num_receivers + 1 = (w.receivers ++ [rc]).length
    simp [hnum]
  · intro rc' hmem
    rw [hlen]
    rcases List.mem_append.mp hmem with hold | hnew
    · exact hbound rc' hold
    · rw [List.mem_singleton.mp hnew]
      exact hprev_lt
  · intro j hj
    rw [hlen] at hj
    have e : cellAt ({ modifyCell w rc.prev Cell.move_to with
        num_receivers := w.num_receivers + 1,
        receivers := w.receivers ++ [rc] } : World T) j
        = cellAt (modifyCell w rc.prev Cell.move_to) j := rfl
    rw [e]
    simp only [modifyCell]
    rw [cellAt_set]
    rw [List.countP_append]
    have hsingle : List.countP (fun rc' => rc'.prev == j) [rc]
        = if rc.prev = j then 1 else 0 := by
      simp [List.countP_cons]
    rw [hsingle]
    have hold_j := hcount j hj
    by_cases hjp : j = rc.prev
    · subst hjp
      rw [if_pos ⟨rfl, hprev_lt⟩, if_pos rfl]
      simp only [Cell.move_to]
      omega
    · rw [if_neg (fun hc => hjp hc.1), if_neg (fun hc => hjp hc.symm)]
      omega

theorem dropReceiver_readInv {T : Type} {w w' : World T} {r : Nat}
    (h : dropReceiver w r = some w') (hinv : ReadInv w) : ReadInv w' := by
  obtain ⟨rc, hrc, hw⟩ := dropReceiver_shape h
  subst hw
  obtain ⟨hnum, hbound, hcount⟩ := hinv
  obtain ⟨hrlen, hrget⟩ := List.getElem?_eq_some_iff.mp hrc
  have hmemrc : rc ∈ w.receivers := by
    rw [← hrget]; exact List.getElem_mem hrlen
  have hprev_lt : rc.prev < w.buffer.length := hbound rc hmemrc
  have hlen : ({ modifyCell { w with num_receivers := w.num_receivers - 1 }
      rc.prev Cell.move_from with
      receivers := w.receivers.eraseIdx r } : World T).buffer.length
      = w.buffer.length := by
    simp [modifyCell, setCell]
  refine ⟨?_, ?_, ?_⟩
  · show w.num_receivers - 1 = (w.receivers.eraseIdx r).length
    rw [List.length_eraseIdx, if_pos hrlen, hnum]
  · intro rc' hmem
    rw [hlen]
    exact hbound rc' (List.mem_of_mem_eraseIdx hmem)
  · intro j hj
    rw [hlen] at hj
    have e : cellAt ({ modifyCell { w with
        num_receivers := w.num_receivers - 1 } rc.prev Cell.move_from with
        receivers := w.receivers.eraseIdx r } : World T) j
        = cellAt (modifyCell { w with num_receivers := w.num_receivers - 1 }
            rc.prev Cell.move_from) j := rfl
    rw [e]
    simp only [modifyCell]
    have hca : ∀ jj, cellAt { w with num_receivers := w.num_receivers - 1 } jj
        = cellAt w jj := fun jj => rfl
    have e2 : cellAt (setCell { w with num_receivers := w.num_receivers - 1 }
        rc.prev (Cell.move_from
          (cellAt { w with num_receivers := w.num_receivers - 1 } rc.prev))) j
        = if j = rc.prev ∧ rc.prev < w.buffer.length
          then Cell.move_from (cellAt w rc.prev) else cellAt w j := by
      rw [cellAt_set]
      simp only [hca]
    rw [e2]
    have hcerase := countP_eraseIdx_add (fun rc' => rc'.prev == j)
      w.receivers r hrlen
    have hgetr : w.receivers.get ⟨r, hrlen⟩ = rc := hrget
    rw [hgetr] at hcerase
    simp only [beq_iff_eq] at hcerase
    have hold_j := hcount j hj
    have hone : 1 ≤ w.receivers.countP (fun rc' => rc'.prev == rc.prev) := by
      refine List.countP_pos_iff.mpr ⟨rc, hmemrc, ?_⟩
      simp
    by_cases hjp : j = rc.prev
    · subst hjp
      rw [if_pos ⟨rfl, hprev_lt⟩]
      rw [if_pos rfl] at hcerase
      simp only [Cell.move_from]
      omega
    · rw [if_neg (fun hc => hjp hc.1)]
      rw [if_neg (fun hc => hjp hc.symm)] at hcerase
      omega

theorem step_readInv {T : Type} {strict : Bool} {w w' : World T} {e : Ev}
    (hs : Step strict w e w') (hinv : ReadInv w) : ReadInv w' := by
  cases hs with
  | sendOk h =>
    obtain ⟨_, _, _, _, hw⟩ := send_ok_shape h
    subst hw
    exact sendSucceed_readInv _ _ hinv
  | sendErr h => rw [send_err_eq h]; exact hinv
  | trySendOk h =>
    obtain ⟨_, _, _, _, hw⟩ := trySend_ok_shape h
    subst hw
    exact sendSucceed_readInv _ _ hinv
  | trySendErr h => rw [trySend_err_eq h]; exact hinv
  | trySendBeforeOk h =>
    obtain ⟨_, _, _, _, hw⟩ := trySendBefore_ok_shape h
    subst hw
    exact sendSucceed_readInv _ _ hinv
  | trySendBeforeErr h => rw [trySendBefore_err_eq h]; exact hinv
  | recvOk h =>
    obtain ⟨rc, hrc, _, _, hw⟩ := recv_ok_shape h
    subst hw
    have hmem : rc ∈ w.receivers := by
      obtain ⟨hl, hg⟩ := List.getElem?_eq_some_iff.mp hrc
      rw [← hg]; exact List.getElem_mem hl
    have hpos : 0 < w.buffer.length := by
      have := hinv.2.1 rc hmem
      omega
    exact advanceReceiver_readInv hinv hrc (Nat.mod_lt _ hpos)
  | tryRecvOk h =>
    obtain ⟨rc, hrc, _, _, hw⟩ := tryRecv_ok_shape h
    subst hw
    have hmem : rc ∈ w.receivers := by
      obtain ⟨hl, hg⟩ := List.getElem?_eq_some_iff.mp hrc
      rw [← hg]; exact List.getElem_mem hl
    have hpos : 0 < w.buffer.length := by
      have := hinv.2.1 rc hmem
      omega
    exact advanceReceiver_readInv hinv hrc (Nat.mod_lt _ hpos)
  | tryRecvErr h => rw [tryRecv_err_eq h]; exact hinv
  | tryRecvUntilOk h =>
    obtain ⟨rc, hrc, _, _, hw⟩ := tryRecvUntil_ok_shape h
    subst hw
    have hmem : rc ∈ w.receivers := by
      obtain ⟨hl, hg⟩ := List.getElem?_eq_some_iff.mp hrc
      rw [← hg]; exact List.getElem_mem hl
    have hpos : 0 < w.buffer.length := by
      have := hinv.2.1 rc hmem
      omega
    exact advanceReceiver_readInv hinv hrc (Nat.mod_lt _ hpos)
  | tryRecvUntilErr h => rw [tryRecvUntil_err_eq h]; exact hinv
  | pollNextOk h =>
    obtain ⟨rc, hrc, _, _, hw⟩ := pollNext_ok_shape h
    subst hw
    have hmem : rc ∈ w.receivers := by
      obtain ⟨hl, hg⟩ := List.getElem?_eq_some_iff.mp hrc
      rw [← hg]; exact List.getElem_mem hl
    have hpos : 0 < w.buffer.length := by
      have := hinv.2.1 rc hmem
      omega
    exact advanceReceiver_readInv hinv hrc (Nat.mod_lt _ hpos)
  | tryRecvBatchStep h =>
    rcases tryRecvBatch_shape h with hw | ⟨rc, numToRead, hrc, hlen2, _, hw⟩
    · rw [hw]; exact hinv
    · subst hw
      exact advanceReceiver_readInv hinv hrc (Nat.mod_lt _ (by omega))
  | cloneReceiverStep h => exact cloneReceiver_readInv h hinv
  | dropReceiverStep h => exact dropReceiver_readInv h hinv
  | newSenderStep =>
    exact @readInv_of_fields T w (newSender w)
      (fun j => rfl) rfl rfl rfl hinv
  | pollReadyReady hsd hstrict h =>
    obtain ⟨sd, idx, _, _, _, _, hw⟩ := pollReady_ready_shape h
    subst hw
    exact readInv_of_fields (w := w) (fun j => rfl) rfl rfl rfl hinv
  | pollReadyPending hsd hstrict h =>
    rcases pollReady_pending_shape h with hw | ⟨sd, idx, _, _, _, _, _, hw⟩
    · rw [hw]; exact hinv
    · subst hw
      exact readInv_of_fields (w := w) (fun j => rfl) rfl rfl rfl hinv
  | pollReadyDisc h => rw [pollReady_disconnected_eq h]; exact hinv
  | @startSendStep _ s k i sd v hsd hready h =>
    obtain ⟨sd2, _, hcc2, _, hw⟩ := startSend_shape h
    subst hw
    refine readInv_of_fields (w := w) ?_ ?_ rfl rfl hinv
    · intro j
      show ((w.buffer.set i
          ((cellAt w i).write_and_publish v sd2.claimedId).1).getD j
          (Cell.new T)).read_counter = (cellAt w j).read_counter
      exact counter_after_set w i
        ((cellAt w i).write_and_publish v sd2.claimedId).1 rfl j
    · simp

theorem star_readInv {T : Type} {strict : Bool} {w w' : World T}
    (hs : Star strict w w') (hinv : ReadInv w) : ReadInv w' := by
  induction hs with
  | refl => exact hinv
  | tail _ hstep ih => exact step_readInv hstep.choose_spec ih

theorem makeChannel_ok_shape {T : Type} {size : Nat} {w0 : World T}
    (h : makeChannel T size = .ok w0) :
    2 ≤ size ∧ size ≤ ISIZE_MAX ∧
      w0 = initWorld T (maybe_next_power_of_two size) := by
  by_cases hs : size < 2
  · simp [makeChannel, hs] at h
  · by_cases hb : size > ISIZE_MAX
    · simp [makeChannel, hs, hb] at h
    · simp only [makeChannel, if_neg hs, if_neg hb, Except.ok.injEq] at h
      exact ⟨by omega, by omega, h.symm⟩

theorem makeChannel_readInv {T : Type} {size : Nat} {w0 : World T}
    (h : makeChannel T size = .ok w0) : ReadInv w0 := by
  obtain ⟨h2, _, hw⟩ := makeChannel_ok_shape h
  subst hw
  refine initWorld_readInv T _ ?_
  have := (maybe_next_power_of_two_spec size).2.1
  omega

/-- C8 — the read-counter census: in every world reachable from
`make_channel` by any sequence of operations (construction, clone, all the
receive variants, drop, and the sender operations), `num_receivers` equals
the number of live receiver handles and each cell's `read_counter` equals
the exact number of live receivers whose `previous_cell_index` is that
cell. -/
theorem c8_read_counter_census {T : Type} {size : Nat} {w0 w : World T}
    (h0 : makeChannel T size = .ok w0) (hstar : Star false w0 w) :
    w.num_receivers = w.receivers.length ∧
    ∀ j, j < w.buffer.length →
      (cellAt w j).read_counter =
        w.receivers.countP (fun rc => rc.prev == j) := by
  have hinv := star_readInv hstar (makeChannel_readInv h0)
  exact ⟨hinv.1, hinv.2.2⟩

/-- C8 scenario stage: fresh size-4 channel, then one recv after one send. -/
def c8w0 : World Nat := (makeChannel Nat 4).toOption.getD dummyWorld

/-- C8 — witness: the census at the fresh size-4 channel, instantiated at
cells 0 and 1 (cell 0 carries the only receiver, cell 1 carries none). -/
theorem c8_read_counter_census_witness :
    c8w0.num_receivers = c8w0.receivers.length ∧
      (cellAt c8w0 0).read_counter =
        c8w0.receivers.countP (fun rc => rc.prev == 0) ∧
      (cellAt c8w0 1).read_counter =
        c8w0.receivers.countP (fun rc => rc.prev == 1) :=
  ⟨(@c8_read_counter_census Nat 4 c8w0 c8w0 (by decide)
      Relation.ReflTransGen.refl).1,
   (@c8_read_counter_census Nat 4 c8w0 c8w0 (by decide)
      Relation.ReflTransGen.refl).2 0 (by decide),
   (@c8_read_counter_census Nat 4 c8w0 c8w0 (by decide)
      Relation.ReflTransGen.refl).2 1 (by decide)⟩

/-! ## The write-head token invariant -/

/-- A sender that holds the write-head token but has not yet claimed an id:
its `current_cell` is non-null and `poll_ready` has not yet returned
`Ready` for it. -/
def holdingB (sd : Snd) : Bool := sd.currentCell.isSome && !sd.ready

/-- The token invariant: `claimed` is at least 1, the ring has at least two
cells, a sender whose `poll_ready` has claimed (ghost `ready`) holds the cell
at `claimedId mod N`, a sender that holds the token without having claimed
yet holds the cell at `claimed mod N`, and the tail pointer is at
`claimed mod N` exactly when no sender holds the token (at most one ever
does). -/
def TokInv {T : Type} (w : World T) : Prop :=
  1 ≤ w.claimed ∧
  2 ≤ w.buffer.length ∧
  (∀ sd ∈ w.senders, sd.ready = true →
      sd.currentCell = some (fast_mod sd.claimedId w.buffer.length)) ∧
  (∀ sd ∈ w.senders, holdingB sd = true →
      sd.currentCell = some (fast_mod w.claimed w.buffer.length)) ∧
  (∀ i, w.tail = some i →
      i = fast_mod w.claimed w.buffer.length ∧
      w.senders.countP holdingB = 0) ∧
  (w.tail = none → w.senders.countP holdingB ≤ 1)

theorem no_holding_of_countP_zero {l : List Snd}
    (h : l.countP holdingB = 0) : ∀ sd ∈ l, holdingB sd = false := by
  intro sd hm
  have := List.countP_eq_zero.mp h sd hm
  simpa using this

theorem initWorld_tokInv (T : Type) (n : Nat) (hn : 2 ≤ n) :
    TokInv (initWorld T n) := by
  refine ⟨Nat.le_refl 1, ?_, ?_, ?_, ?_, ?_⟩
  · simpa [initWorld_buffer_length] using hn
  · intro sd hm hr
    simp only [initWorld, List.mem_singleton] at hm
    subst hm
    simp [Snd.new] at hr
  · intro sd hm hh
    simp only [initWorld, List.mem_singleton] at hm
    subst hm
    simp [holdingB, Snd.new] at hh
  · intro i hi
    simp only [initWorld, Option.some.injEq] at hi
    subst hi
    constructor
    · rw [initWorld_buffer_length]
      show (1 : Nat) = fast_mod 1 n
      simp [fast_mod, Nat.mod_eq_of_lt (by omega : 1 < n)]
    · simp [initWorld, holdingB, Snd.new, List.countP_cons]
  · intro hn2
    simp [initWorld] at hn2

theorem tokInv_of_fields {T : Type} {w w' : World T}
    (hc : w'.claimed = w.claimed) (ht : w'.tail = w.tail)
    (hl : w'.buffer.length = w.buffer.length)
    (hs : w'.senders = w.senders) (hinv : TokInv w) : TokInv w' := by
  obtain ⟨h1, h2, hready, hhold, hts, htn⟩ := hinv
  refine ⟨by omega, by omega, ?_, ?_, ?_, ?_⟩
  · intro sd hm hr
    rw [hs] at hm
    rw [hl]
    exact hready sd hm hr
  · intro sd hm hh
    rw [hs] at hm
    rw [hl, hc]
    exact hhold sd hm hh
  · intro i hi
    rw [ht] at hi
    rw [hl, hc, hs]
    exact hts i hi
  · intro hn
    rw [ht] at hn
    rw [hs]
    exact htn hn

theorem sendSucceed_tokInv {T : Type} {w : World T} {i : Nat} {v : T}
    (htail : w.tail = some i) (hinv : TokInv w) :
    TokInv (sendSucceed { w with tail := none } i v).1 := by
  obtain ⟨h1, h2, hready, hhold, hts, htn⟩ := hinv
  obtain ⟨hi, hcz⟩ := hts i htail
  have hnohold := no_holding_of_countP_zero hcz
  refine ⟨?_, ?_, ?_, ?_, ?_, ?_⟩
  · show 1 ≤ w.claimed + 1
    omega
  · show 2 ≤ (w.buffer.set i _).length
    rw [List.length_set]
    exact h2
  · intro sd hm hr
    show sd.currentCell
        = some (fast_mod sd.claimedId (w.buffer.set i _).length)
    rw [List.length_set]
    exact hready sd hm hr
  · intro sd hm hh
    have hfalse := hnohold sd hm
    rw [hfalse] at hh
    exact absurd hh (by simp)
  · intro i2 hi2
    have hi2' : some (fast_mod (w.claimed + 1) w.buffer.length) = some i2 :=
      hi2
    injection hi2' with he
    subst he
    constructor
    · show fast_mod (w.claimed + 1) w.buffer.length
        = fast_mod (w.claimed + 1) (w.buffer.set i _).length
      rw [List.length_set]
    · exact hcz
  · intro hn
    exact Option.noConfusion hn

theorem mem_of_getElem? {α : Type} {l : List α} {n : Nat} {a : α}
    (h : l[n]? = some a) : a ∈ l := by
  obtain ⟨hl, hg⟩ := List.getElem?_eq_some_iff.mp h
  rw [← hg]
  exact List.getElem_mem hl

theorem pollReadyReady_tokInv {T : Type} {w w' : World T} {s : Nat} {sd : Snd}
    (hsd : w.senders[s]? = some sd) (hrdf : sd.ready = false)
    (h : pollReady w s = .ready w') (hinv : TokInv w) : TokInv w' := by
  obtain ⟨sd2, idx, hsd2, h0, hrc, hAB, hw⟩ := pollReady_ready_shape h
  have hsdeq : sd2 = sd := by
    rw [hsd] at hsd2
    injection hsd2 with he
    exact he.symm
  subst hsdeq
  obtain ⟨h1, h2, hready, hhold, hts, htn⟩ := hinv
  have hslen : s < w.senders.length := (List.getElem?_eq_some_iff.mp hsd).1
  have hmem : sd2 ∈ w.senders := mem_of_getElem? hsd
  have hidx : idx = fast_mod w.claimed w.buffer.length := by
    rcases hAB with hA | ⟨hB1, hB2⟩
    · have hh : holdingB sd2 = true := by
        simp [holdingB, hA, hrdf]
      have hcell := hhold sd2 hmem hh
      rw [hA] at hcell
      injection hcell
    · exact (hts idx hB2).1
  have hget : w.senders.get ⟨s, hslen⟩ = sd2 :=
    (List.getElem?_eq_some_iff.mp hsd).2
  have hcset := countP_set_add holdingB w.senders s
    (⟨some idx, w.claimed, true⟩ : Snd) hslen
  rw [hget] at hcset
  have hnew_nohold : holdingB (⟨some idx, w.claimed, true⟩ : Snd) = false := by
    simp [holdingB]
  rw [hnew_nohold] at hcset
  simp only [Bool.false_eq_true, if_false, Nat.add_zero] at hcset
  have hcount0 : (w.senders.set s
      (⟨some idx, w.claimed, true⟩ : Snd)).countP holdingB = 0 := by
    rcases hAB with hA | ⟨hB1, hB2⟩
    · have hh : holdingB sd2 = true := by
        simp [holdingB, hA, hrdf]
      have hpos : 0 < w.senders.countP holdingB :=
        List.countP_pos_iff.mpr ⟨sd2, hmem, hh⟩
      have hle : w.senders.countP holdingB ≤ 1 := by
        match htl : w.tail with
        | some j => exact absurd (hts j htl).2 (by omega)
        | none => exact htn htl
      rw [if_pos hh] at hcset
      omega
    · have hh : holdingB sd2 = false := by
        simp [holdingB, hB1]
      have hcz := (hts idx hB2).2
      rw [hh] at hcset
      simp only [Bool.false_eq_true, if_false, Nat.add_zero] at hcset
      omega
  subst hw
  refine ⟨?_, ?_, ?_, ?_, ?_, ?_⟩
  · show 1 ≤ w.claimed + 1
    omega
  · exact h2
  · intro sd' hm hr
    rcases List.mem_or_eq_of_mem_set hm with hold | hnewm
    · exact hready sd' hold hr
    · subst hnewm
      show some idx = some (fast_mod w.claimed w.buffer.length)
      rw [hidx]
  · intro sd' hm hh
    have := no_holding_of_countP_zero hcount0 sd' hm
    rw [this] at hh
    exact absurd hh (by simp)
  · intro i2 hi2
    have hi2' : some (fast_mod (w.claimed + 1) w.buffer.length) = some i2 :=
      hi2
    injection hi2' with he
    subst he
    exact ⟨rfl, hcount0⟩
  · intro hn
    exact Option.noConfusion hn

theorem pollReadyPending_tokInv {T : Type} {w w' : World T} {s : Nat}
    (h : pollReady w s = .pending w') (hinv : TokInv w) : TokInv w' := by
  rcases pollReady_pending_shape h with hw | ⟨sd, idx, hsd, h0, hcc, htl, hrc, hw⟩
  · rw [hw]; exact hinv
  · obtain ⟨h1, h2, hready, hhold, hts, htn⟩ := hinv
    obtain ⟨hi, hcz⟩ := hts idx htl
    have hslen : s < w.senders.length := (List.getElem?_eq_some_iff.mp hsd).1
    have hmem : sd ∈ w.senders := mem_of_getElem? hsd
    have hget : w.senders.get ⟨s, hslen⟩ = sd :=
      (List.getElem?_eq_some_iff.mp hsd).2
    have hrdf : sd.ready = false := by
      cases hr : sd.ready with
      | false => rfl
      | true =>
        have := hready sd hmem hr
        rw [hcc] at this
        exact absurd this (by simp)
    have hcset := countP_set_add holdingB w.senders s
      { sd with currentCell := some idx } hslen
    rw [hget] at hcset
    have hold_false : holdingB sd = false := by
      simp [holdingB, hcc]
    have hnew_true : holdingB { sd with currentCell := some idx } = true := by
      simp [holdingB, hrdf]
    have hcset2 : (w.senders.set s
        { sd with currentCell := some idx }).countP holdingB
        = w.senders.countP holdingB + 1 := by
      rw [hold_false, hnew_true] at hcset
      simpa using hcset
    have hcount1 : (w.senders.set s
        { sd with currentCell := some idx }).countP holdingB = 1 := by
      omega
    subst hw
    refine ⟨h1, h2, ?_, ?_, ?_, ?_⟩
    · intro sd' hm hr
      rcases List.mem_or_eq_of_mem_set hm with hold | hnewm
      · exact hready sd' hold hr
      · subst hnewm
        have hr2 : sd.ready = true := hr
        rw [hrdf] at hr2
        exact absurd hr2 (by simp)
    · intro sd' hm hh
      rcases List.mem_or_eq_of_mem_set hm with hold | hnewm
      · have := no_holding_of_countP_zero hcz sd' hold
        rw [this] at hh
        exact absurd hh (by simp)
      · subst hnewm
        show some idx = some (fast_mod w.claimed w.buffer.length)
        rw [hi]
    · intro i2 hi2
      exact absurd (hi2 : (none : Option Nat) = some i2) (by simp)
    · intro hn
      show (w.senders.set s
        { sd with currentCell := some idx }).countP holdingB ≤ 1
      omega

theorem startSend_tokInv {T : Type} {w w' : World T} {s k i : Nat} {sd : Snd}
    {v : T} (hsd : w.senders[s]? = some sd) (hready1 : sd.ready = true)
    (h : startSend w s v = some (w', k, i)) (hinv : TokInv w) : TokInv w' := by
  obtain ⟨sd2, hsd2, hcc, hk, hw⟩ := startSend_shape h
  have hsdeq : sd2 = sd := by
    rw [hsd] at hsd2
    injection hsd2 with he
    exact he.symm
  subst hsdeq
  obtain ⟨h1, h2, hready, hhold, hts, htn⟩ := hinv
  have hslen : s < w.senders.length := (List.getElem?_eq_some_iff.mp hsd).1
  have hmem : sd2 ∈ w.senders := mem_of_getElem? hsd
  have hget : w.senders.get ⟨s, hslen⟩ = sd2 :=
    (List.getElem?_eq_some_iff.mp hsd).2
  have hcset := countP_set_add holdingB w.senders s
    { sd2 with currentCell := none, ready := false } hslen
  rw [hget] at hcset
  have hold_false : holdingB sd2 = false := by
    simp [holdingB, hready1]
  have hnew_false : holdingB { sd2 with currentCell := none, ready := false }
      = false := by
    simp [holdingB]
  have hcset2 : (w.senders.set s
      { sd2 with currentCell := none, ready := false }).countP holdingB
      = w.senders.countP holdingB := by
    rw [hold_false, hnew_false] at hcset
    simpa using hcset
  have hmid : TokInv { w with
      senders := w.senders.set s
        { sd2 with currentCell := none, ready := false } } := by
    refine ⟨h1, h2, ?_, ?_, ?_, ?_⟩
    · intro sd' hm hr
      rcases List.mem_or_eq_of_mem_set hm with hold | hnewm
      · exact hready sd' hold hr
      · subst hnewm
        exact absurd (hr : false = true) (by simp)
    · intro sd' hm hh
      rcases List.mem_or_eq_of_mem_set hm with hold | hnewm
      · exact hhold sd' hold hh
      · subst hnewm
        rw [hnew_false] at hh
        exact absurd hh (by simp)
    · intro i2 hi2
      obtain ⟨heq, hcz⟩ := hts i2 hi2
      refine ⟨heq, ?_⟩
      show (w.senders.set s
        { sd2 with currentCell := none, ready := false }).countP holdingB = 0
      omega
    · intro hn
      have := htn hn
      show (w.senders.set s
        { sd2 with currentCell := none, ready := false }).countP holdingB ≤ 1
      omega
  subst hw
  exact tokInv_of_fields (w := { w with
      senders := w.senders.set s
        { sd2 with currentCell := none, ready := false } })
    rfl rfl (by simp) rfl hmid

theorem newSender_tokInv {T : Type} {w : World T} (hinv : TokInv w) :
    TokInv (newSender w) := by
  obtain ⟨h1, h2, hready, hhold, hts, htn⟩ := hinv
  have hzero : List.countP holdingB [Snd.new] = 0 := by
    simp [List.countP_cons, holdingB, Snd.new]
  refine ⟨h1, h2, ?_, ?_, ?_, ?_⟩
  · intro sd hm hr
    rcases List.mem_append.mp hm with hold | hnew
    · exact hready sd hold hr
    · rw [List.mem_singleton.mp hnew] at hr
      simp [Snd.new] at hr
  · intro sd hm hh
    rcases List.mem_append.mp hm with hold | hnew
    · exact hhold sd hold hh
    · rw [List.mem_singleton.mp hnew] at hh
      simp [holdingB, Snd.new] at hh
  · intro i hi
    obtain ⟨heq, hcz⟩ := hts i hi
    refine ⟨heq, ?_⟩
    show (w.senders ++ [Snd.new]).countP holdingB = 0
    rw [List.countP_append, hzero, hcz]
  · intro hn
    have := htn hn
    show (w.senders ++ [Snd.new]).countP holdingB ≤ 1
    rw [List.countP_append, hzero]
    omega

theorem advanceReceiver_length {T : Type} (w : World T) (r : Nat) (rc : Rcv)
    (nc np : Nat) :
    (advanceReceiver w r rc nc np).buffer.length = w.buffer.length := by
  simp [advanceReceiver, modifyCell, setCell]

theorem step_tokInv {T : Type} {w w' : World T} {e : Ev}
    (hs : Step true w e w') (hinv : TokInv w) : TokInv w' := by
  cases hs with
  | sendOk h =>
    obtain ⟨_, htail, _, _, hw⟩ := send_ok_shape h
    subst hw
    exact sendSucceed_tokInv htail hinv
  | sendErr h => rw [send_err_eq h]; exact hinv
  | trySendOk h =>
    obtain ⟨_, htail, _, _, hw⟩ := trySend_ok_shape h
    subst hw
    exact sendSucceed_tokInv htail hinv
  | trySendErr h => rw [trySend_err_eq h]; exact hinv
  | trySendBeforeOk h =>
    obtain ⟨_, htail, _, _, hw⟩ := trySendBefore_ok_shape h
    subst hw
    exact sendSucceed_tokInv htail hinv
  | trySendBeforeErr h => rw [trySendBefore_err_eq h]; exact hinv
  | recvOk h =>
    obtain ⟨rc, hrc, _, _, hw⟩ := recv_ok_shape h
    subst hw
    exact tokInv_of_fields (w := w) rfl rfl (advanceReceiver_length w _ _ _ _) rfl hinv
  | tryRecvOk h =>
    obtain ⟨rc, hrc, _, _, hw⟩ := tryRecv_ok_shape h
    subst hw
    exact tokInv_of_fields (w := w) rfl rfl (advanceReceiver_length w _ _ _ _) rfl hinv
  | tryRecvErr h => rw [tryRecv_err_eq h]; exact hinv
  | tryRecvUntilOk h =>
    obtain ⟨rc, hrc, _, _, hw⟩ := tryRecvUntil_ok_shape h
    subst hw
    exact tokInv_of_fields (w := w) rfl rfl (advanceReceiver_length w _ _ _ _) rfl hinv
  | tryRecvUntilErr h => rw [tryRecvUntil_err_eq h]; exact hinv
  | pollNextOk h =>
    obtain ⟨rc, hrc, _, _, hw⟩ := pollNext_ok_shape h
    subst hw
    exact tokInv_of_fields (w := w) rfl rfl (advanceReceiver_length w _ _ _ _) rfl hinv
  | tryRecvBatchStep h =>
    rcases tryRecvBatch_shape h with hw | ⟨rc, numToRead, hrc, _, _, hw⟩
    · rw [hw]; exact hinv
    · subst hw
      exact tokInv_of_fields (w := w) rfl rfl
        (advanceReceiver_length w _ _ _ _) rfl hinv
  | cloneReceiverStep h =>
    obtain ⟨rc, hrc, hw⟩ := cloneReceiver_shape h
    subst hw
    exact tokInv_of_fields (w := w) rfl rfl (by simp [modifyCell, setCell]) rfl hinv
  | dropReceiverStep h =>
    obtain ⟨rc, hrc, hw⟩ := dropReceiver_shape h
    subst hw
    exact tokInv_of_fields (w := w) rfl rfl (by simp [modifyCell, setCell]) rfl hinv
  | newSenderStep => exact newSender_tokInv hinv
  | pollReadyReady hsd hstrict h =>
    exact pollReadyReady_tokInv hsd (hstrict rfl) h hinv
  | pollReadyPending hsd hstrict h => exact pollReadyPending_tokInv h hinv
  | pollReadyDisc h => rw [pollReady_disconnected_eq h]; exact hinv
  | startSendStep hsd hready1 h => exact startSend_tokInv hsd hready1 h hinv

theorem star_tokInv {T : Type} {w w' : World T}
    (hs : Star true w w') (hinv : TokInv w) : TokInv w' := by
  induction hs with
  | refl => exact hinv
  | tail _ hstep ih => exact step_tokInv hstep.choose_spec ih

theorem makeChannel_tokInv {T : Type} {size : Nat} {w0 : World T}
    (h : makeChannel T size = .ok w0) : TokInv w0 := by
  obtain ⟨h2, _, hw⟩ := makeChannel_ok_shape h
  subst hw
  refine initWorld_tokInv T _ ?_
  have := (maybe_next_power_of_two_spec size).2.1
  omega

theorem cellAt_set_self {T : Type} (w : World T) (i : Nat) (c : Cell T)
    (hi : i < w.buffer.length) :
    (w.buffer.set i c).getD i (Cell.new T) = c := by
  simp [List.getD_eq_getElem?_getD, List.getElem?_set, hi]

/-- C3 (amended) — in every reachable world, under the `Sink` discipline in
which `poll_ready` is not re-invoked between returning `Ready` and the
matching `start_send`: every step that hands out a claim id hands out exactly
the current `claimed` counter and bumps it by one, no other step changes the
counter, the counter starts at 1 (so claim ids are consecutive from 1), and
every successful publish of id `k` — by `send`, `try_send`,
`try_send_before` or `start_send` — writes the cell at index `k mod N`,
whose `current_id` is `k` immediately afterwards. -/
theorem c3_claim_publish_invariant {T : Type} {size : Nat} {w0 : World T}
    (h0 : makeChannel T size = .ok w0) :
    w0.claimed = 1 ∧
    ∀ w e w', Star true w0 w → Step true w e w' →
      (∀ k, e.claim = some k → k = w.claimed ∧ w'.claimed = w.claimed + 1) ∧
      (e.claim = none → w'.claimed = w.claimed) ∧
      (∀ k i, e.publish = some (k, i) →
        i = fast_mod k w.buffer.length ∧ (cellAt w' i).current_id = k) := by
  constructor
  · obtain ⟨_, _, hw⟩ := makeChannel_ok_shape h0
    rw [hw]
    rfl
  intro w e w' hstar hstep
  have hinv := star_tokInv hstar (makeChannel_tokInv h0)
  obtain ⟨h1, h2, hready, hhold, hts, htn⟩ := hinv
  cases hstep with
  | sendOk h =>
    obtain ⟨_, htail, _, hk, hw⟩ := send_ok_shape h
    obtain ⟨hi, _⟩ := hts _ htail
    refine ⟨?_, ?_, ?_⟩
    · intro k2 hk2
      simp at hk2
      subst hk2
      subst hk
      subst hw
      exact ⟨rfl, rfl⟩
    · intro hnone
      simp at hnone
    · intro k2 i2 hp
      simp at hp
      obtain ⟨hpk, hpi⟩ := hp
      subst hpk
      subst hpi
      subst hk
      subst hw
      refine ⟨hi, ?_⟩
      have hlt : fast_mod w.claimed w.buffer.length < w.buffer.length :=
        Nat.mod_lt _ (by omega)
      rw [← hi] at hlt
      show ((w.buffer.set _ _).getD _ (Cell.new T)).current_id = w.claimed
      rw [cellAt_set_self w _ _ hlt]
      exact rfl
  | trySendOk h =>
    obtain ⟨_, htail, _, hk, hw⟩ := trySend_ok_shape h
    obtain ⟨hi, _⟩ := hts _ htail
    refine ⟨?_, ?_, ?_⟩
    · intro k2 hk2
      simp at hk2
      subst hk2
      subst hk
      subst hw
      exact ⟨rfl, rfl⟩
    · intro hnone
      simp at hnone
    · intro k2 i2 hp
      simp at hp
      obtain ⟨hpk, hpi⟩ := hp
      subst hpk
      subst hpi
      subst hk
      subst hw
      refine ⟨hi, ?_⟩
      have hlt : fast_mod w.claimed w.buffer.length < w.buffer.length :=
        Nat.mod_lt _ (by omega)
      rw [← hi] at hlt
      show ((w.buffer.set _ _).getD _ (Cell.new T)).current_id = w.claimed
      rw [cellAt_set_self w _ _ hlt]
      exact rfl
  | trySendBeforeOk h =>
    obtain ⟨_, htail, _, hk, hw⟩ := trySendBefore_ok_shape h
    obtain ⟨hi, _⟩ := hts _ htail
    refine ⟨?_, ?_, ?_⟩
    · intro k2 hk2
      simp at hk2
      subst hk2
      subst hk
      subst hw
      exact ⟨rfl, rfl⟩
    · intro hnone
      simp at hnone
    · intro k2 i2 hp
      simp at hp
      obtain ⟨hpk, hpi⟩ := hp
      subst hpk
      subst hpi
      subst hk
      subst hw
      refine ⟨hi, ?_⟩
      have hlt : fast_mod w.claimed w.buffer.length < w.buffer.length :=
        Nat.mod_lt _ (by omega)
      rw [← hi] at hlt
      show ((w.buffer.set _ _).getD _ (Cell.new T)).current_id = w.claimed
      rw [cellAt_set_self w _ _ hlt]
      exact rfl
  | sendErr h =>
    refine ⟨fun k2 hk2 => by simp [Ev.silent] at hk2,
      fun _ => by rw [send_err_eq h],
      fun k2 i2 hp => by simp [Ev.silent] at hp⟩
  | trySendErr h =>
    refine ⟨fun k2 hk2 => by simp [Ev.silent] at hk2,
      fun _ => by rw [trySend_err_eq h],
      fun k2 i2 hp => by simp [Ev.silent] at hp⟩
  | trySendBeforeErr h =>
    refine ⟨fun k2 hk2 => by simp [Ev.silent] at hk2,
      fun _ => by rw [trySendBefore_err_eq h],
      fun k2 i2 hp => by simp [Ev.silent] at hp⟩
  | recvOk h =>
    obtain ⟨rc, _, _, _, hw⟩ := recv_ok_shape h
    subst hw
    exact ⟨fun k2 hk2 => by simp [Ev.silent] at hk2, fun _ => rfl,
      fun k2 i2 hp => by simp [Ev.silent] at hp⟩
  | tryRecvOk h =>
    obtain ⟨rc, _, _, _, hw⟩ := tryRecv_ok_shape h
    subst hw
    exact ⟨fun k2 hk2 => by simp [Ev.silent] at hk2, fun _ => rfl,
      fun k2 i2 hp => by simp [Ev.silent] at hp⟩
  | tryRecvErr h =>
    refine ⟨fun k2 hk2 => by simp [Ev.silent] at hk2,
      fun _ => by rw [tryRecv_err_eq h],
      fun k2 i2 hp => by simp [Ev.silent] at hp⟩
  | tryRecvUntilOk h =>
    obtain ⟨rc, _, _, _, hw⟩ := tryRecvUntil_ok_shape h
    subst hw
    exact ⟨fun k2 hk2 => by simp [Ev.silent] at hk2, fun _ => rfl,
      fun k2 i2 hp => by simp [Ev.silent] at hp⟩
  | tryRecvUntilErr h =>
    refine ⟨fun k2 hk2 => by simp [Ev.silent] at hk2,
      fun _ => by rw [tryRecvUntil_err_eq h],
      fun k2 i2 hp => by simp [Ev.silent] at hp⟩
  | pollNextOk h =>
    obtain ⟨rc, _, _, _, hw⟩ := pollNext_ok_shape h
    subst hw
    exact ⟨fun k2 hk2 => by simp [Ev.silent] at hk2, fun _ => rfl,
      fun k2 i2 hp => by simp [Ev.silent] at hp⟩
  | tryRecvBatchStep h =>
    rcases tryRecvBatch_shape h with hw | ⟨rc, numToRead, _, _, _, hw⟩
    · subst hw
      exact ⟨fun k2 hk2 => by simp [Ev.silent] at hk2, fun _ => rfl,
        fun k2 i2 hp => by simp [Ev.silent] at hp⟩
    · subst hw
      exact ⟨fun k2 hk2 => by simp [Ev.silent] at hk2, fun _ => rfl,
        fun k2 i2 hp => by simp [Ev.silent] at hp⟩
  | cloneReceiverStep h =>
    obtain ⟨rc, _, hw⟩ := cloneReceiver_shape h
    subst hw
    exact ⟨fun k2 hk2 => by simp [Ev.silent] at hk2, fun _ => rfl,
      fun k2 i2 hp => by simp [Ev.silent] at hp⟩
  | dropReceiverStep h =>
    obtain ⟨rc, _, hw⟩ := dropReceiver_shape h
    subst hw
    exact ⟨fun k2 hk2 => by simp [Ev.silent] at hk2, fun _ => rfl,
      fun k2 i2 hp => by simp [Ev.silent] at hp⟩
  | newSenderStep =>
    exact ⟨fun k2 hk2 => by simp [Ev.silent] at hk2, fun _ => rfl,
      fun k2 i2 hp => by simp [Ev.silent] at hp⟩
  | pollReadyReady hsd hstrict h =>
    obtain ⟨sd2, idx, _, _, _, _, hw⟩ := pollReady_ready_shape h
    subst hw
    refine ⟨?_, ?_, ?_⟩
    · intro k2 hk2
      simp at hk2
      subst hk2
      exact ⟨rfl, rfl⟩
    · intro hnone
      simp at hnone
    · intro k2 i2 hp
      simp at hp
  | pollReadyPending hsd hstrict h =>
    rcases pollReady_pending_shape h with hw | ⟨sd2, idx, _, _, _, _, _, hw⟩
    · subst hw
      exact ⟨fun k2 hk2 => by simp [Ev.silent] at hk2, fun _ => rfl,
        fun k2 i2 hp => by simp [Ev.silent] at hp⟩
    · subst hw
      exact ⟨fun k2 hk2 => by simp [Ev.silent] at hk2, fun _ => rfl,
        fun k2 i2 hp => by simp [Ev.silent] at hp⟩
  | pollReadyDisc h =>
    refine ⟨fun k2 hk2 => by simp [Ev.silent] at hk2,
      fun _ => by rw [pollReady_disconnected_eq h],
      fun k2 i2 hp => by simp [Ev.silent] at hp⟩
  | startSendStep hsd hready1 h =>
    obtain ⟨sd2, hsd2, hcc, hk, hw⟩ := startSend_shape h
    rw [hsd] at hsd2
    injection hsd2 with he
    have hready2 : sd2.ready = true := he ▸ hready1
    have hsd3 := he ▸ hsd
    have hmem := mem_of_getElem? hsd3
    have hcell := hready _ hmem hready2
    rw [hcc] at hcell
    injection hcell with hieq
    refine ⟨?_, ?_, ?_⟩
    · intro k2 hk2
      simp at hk2
    · intro _
      subst hw
      rfl
    · intro k2 i2 hp
      simp at hp
      obtain ⟨hpk, hpi⟩ := hp
      subst hpk
      subst hpi
      subst hk
      refine ⟨hieq, ?_⟩
      subst hw
      have hlt : fast_mod sd2.claimedId w.buffer.length < w.buffer.length :=
        Nat.mod_lt _ (by omega)
      rw [← hieq] at hlt
      show ((w.buffer.set _ _).getD _ (Cell.new T)).current_id = sd2.claimedId
      rw [cellAt_set_self w _ _ hlt]
      exact rfl

/-- C3 stage: the world after one successful `send 5` on a fresh size-4
channel (claim id 1, cell index 1). -/
def c3aw1 : World Nat :=
  match send c3w0 5 with
  | .ok w _ _ => w
  | _ => dummyWorld

/-- C3 — witness: the amended invariant applied to the single-step run
`send 5` on a fresh size-4 channel: the channel starts with `claimed = 1`,
the send claims exactly id 1 and bumps the counter to 2, and publishes at
index `1 mod 4` with `current_id = 1`. -/
theorem c3_claim_publish_invariant_witness :
    c3w0.claimed = 1 ∧
      (1 = c3w0.claimed ∧ c3aw1.claimed = c3w0.claimed + 1) ∧
      (1 = fast_mod 1 c3w0.buffer.length ∧ (cellAt c3aw1 1).current_id = 1) :=
  have H := @c3_claim_publish_invariant Nat 4 c3w0 (by decide)
  have hstep : Step true c3w0
      { claim := some 1, publish := some (1, 1) } c3aw1 :=
    Step.sendOk (v := 5) (by decide)
  have H2 := H.2 c3w0 { claim := some 1, publish := some (1, 1) } c3aw1
    Relation.ReflTransGen.refl hstep
  ⟨H.1, H2.1 1 rfl, H2.2.2 1 1 rfl⟩

/-! ## Disconnection is permanent -/

theorem step_receivers_empty {T : Type} {strict : Bool} {w w' : World T}
    {e : Ev} (hs : Step strict w e w') (hr : w.receivers = []) :
    w'.receivers = [] ∧ w'.num_receivers = w.num_receivers := by
  cases hs with
  | sendOk h =>
    obtain ⟨_, _, _, _, hw⟩ := send_ok_shape h
    subst hw
    exact ⟨hr, rfl⟩
  | sendErr h => rw [send_err_eq h]; exact ⟨hr, rfl⟩
  | trySendOk h =>
    obtain ⟨_, _, _, _, hw⟩ := trySend_ok_shape h
    subst hw
    exact ⟨hr, rfl⟩
  | trySendErr h => rw [trySend_err_eq h]; exact ⟨hr, rfl⟩
  | trySendBeforeOk h =>
    obtain ⟨_, _, _, _, hw⟩ := trySendBefore_ok_shape h
    subst hw
    exact ⟨hr, rfl⟩
  | trySendBeforeErr h => rw [trySendBefore_err_eq h]; exact ⟨hr, rfl⟩
  | recvOk h =>
    obtain ⟨rc, hrc, _, _, _⟩ := recv_ok_shape h
    rw [hr] at hrc
    simp at hrc
  | tryRecvOk h =>
    obtain ⟨rc, hrc, _, _, _⟩ := tryRecv_ok_shape h
    rw [hr] at hrc
    simp at hrc
  | tryRecvErr h => rw [tryRecv_err_eq h]; exact ⟨hr, rfl⟩
  | tryRecvUntilOk h =>
    obtain ⟨rc, hrc, _, _, _⟩ := tryRecvUntil_ok_shape h
    rw [hr] at hrc
    simp at hrc
  | tryRecvUntilErr h => rw [tryRecvUntil_err_eq h]; exact ⟨hr, rfl⟩
  | pollNextOk h =>
    obtain ⟨rc, hrc, _, _, _⟩ := pollNext_ok_shape h
    rw [hr] at hrc
    simp at hrc
  | tryRecvBatchStep h =>
    rcases tryRecvBatch_shape h with hw | ⟨rc, numToRead, hrc, _, _, _⟩
    · rw [hw]; exact ⟨hr, rfl⟩
    · rw [hr] at hrc
      simp at hrc
  | cloneReceiverStep h =>
    obtain ⟨rc, hrc, _⟩ := cloneReceiver_shape h
    rw [hr] at hrc
    simp at hrc
  | dropReceiverStep h =>
    obtain ⟨rc, hrc, _⟩ := dropReceiver_shape h
    rw [hr] at hrc
    simp at hrc
  | newSenderStep => exact ⟨hr, rfl⟩
  | pollReadyReady hsd hstrict h =>
    obtain ⟨sd, idx, _, _, _, _, hw⟩ := pollReady_ready_shape h
    subst hw
    exact ⟨hr, rfl⟩
  | pollReadyPending hsd hstrict h =>
    rcases pollReady_pending_shape h with hw | ⟨sd, idx, _, _, _, _, _, hw⟩
    · rw [hw]; exact ⟨hr, rfl⟩
    · subst hw
      exact ⟨hr, rfl⟩
  | pollReadyDisc h => rw [pollReady_disconnected_eq h]; exact ⟨hr, rfl⟩
  | startSendStep hsd hready1 h =>
    obtain ⟨sd, _, _, _, hw⟩ := startSend_shape h
    subst hw
    exact ⟨hr, rfl⟩

theorem star_receivers_empty {T : Type} {strict : Bool} {w w' : World T}
    (hs : Star strict w w') (hr : w.receivers = []) :
    w'.receivers = [] ∧ w'.num_receivers = w.num_receivers := by
  induction hs with
  | refl => exact ⟨hr, rfl⟩
  | tail _ hstep ih =>
    obtain ⟨hre, hnum⟩ := ih
    obtain ⟨hre2, hnum2⟩ := step_receivers_empty hstep.choose_spec hre
    exact ⟨hre2, by omega⟩

/-- C10 — once the receiver census reaches zero it never becomes positive
again: no reachable continuation re-creates a receiver (construction happens
only in `make_channel`, and cloning needs a live handle), `new_sender` makes
only senders, and from that point every `send`, `try_send` and
`try_send_before` returns `Disconnected` carrying the value, leaving the
world unchanged. -/
theorem c10_disconnected_forever {T : Type} {size : Nat} {w0 w w' : World T}
    (h0 : makeChannel T size = .ok w0) (hstar : Star false w0 w)
    (hzero : w.num_receivers = 0) (hstar2 : Star false w w') :
    w'.num_receivers = 0 ∧
    ∀ (v : T) (d : Bool),
      send w' v = .err (.Disconnected (some v)) w' ∧
      trySend w' v = .err (.Disconnected (some v)) w' ∧
      trySendBefore w' v d = .err (.Disconnected (some v)) w' := by
  have hinv := star_readInv hstar (makeChannel_readInv h0)
  have hempty : w.receivers = [] := by
    have hn := hinv.1
    rw [hzero] at hn
    exact List.eq_nil_of_length_eq_zero hn.symm
  obtain ⟨hre, hnum⟩ := star_receivers_empty hstar2 hempty
  have hz2 : w'.num_receivers = 0 := by omega
  refine ⟨hz2, fun v d => ?_⟩
  refine ⟨?_, ?_, ?_⟩ <;> simp [send, trySend, trySendBefore, hz2]

/-- C10 stage: fresh size-2 channel. -/
def c10w0 : World Nat := (makeChannel Nat 2).toOption.getD dummyWorld

/-- C10 stage: after its only receiver is dropped. -/
def c10w1 : World Nat := (dropReceiver c10w0 0).getD dummyWorld

/-- C10 — witness: drop the only receiver of a fresh size-2 channel; the
census is 0 and all three sends report `Disconnected(Some 9)`. -/
theorem c10_disconnected_forever_witness :
    c10w1.num_receivers = 0 ∧
      send c10w1 9 = .err (.Disconnected (some 9)) c10w1 ∧
      trySend c10w1 9 = .err (.Disconnected (some 9)) c10w1 ∧
      trySendBefore c10w1 9 false = .err (.Disconnected (some 9)) c10w1 :=
  have hstep : Step false c10w0 Ev.silent c10w1 :=
    Step.dropReceiverStep (r := 0) (by decide)
  have hstar : Star false c10w0 c10w1 :=
    Relation.ReflTransGen.single ⟨Ev.silent, hstep⟩
  have H := @c10_disconnected_forever Nat 2 c10w0 c10w1 c10w1 (by decide)
    hstar (by decide) Relation.ReflTransGen.refl
  ⟨H.1, (H.2 9 false).1, (H.2 9 false).2.1, (H.2 9 false).2.2⟩

/-! ## C1: n sends then n recvs return the values in order

`worldSR n sent r` is the channel state after a fresh one-sender-one-receiver
channel of ring size `n` has performed `sent.length` successful sends of the
values `sent` (with `sent.length ≤ n - 1`, so no wrap) and the receiver has
consumed the first `r` of them. -/

/-- The cell at ring index `j` in that state: values `sent` occupy indices
`1..sent.length` with their claim ids; the receiver anchors index `r`
(index 0 before its first receive); everything else is untouched. -/
def srCell {T : Type} (sent : List T) (pr : Nat) (j : Nat) : Cell T :=
  { value := if 1 ≤ j ∧ j ≤ sent.length then sent[j - 1]? else none,
    read_counter := if j = pr then 1 else 0,
    current_id := if 1 ≤ j ∧ j ≤ sent.length then j else USIZE_MAX }

/-- The whole state after `sent` sends and `r` receives. -/
def worldSR (T : Type) (n : Nat) (sent : List T) (r : Nat) : World T :=
  { buffer := (List.range n).map (srCell sent (if r = 0 then 0 else r)),
    claimed := sent.length + 1,
    tail := some ((sent.length + 1) % n),
    num_receivers := 1,
    receivers := [{ cursor := r + 1, prev := if r = 0 then 0 else r }],
    senders := [Snd.new],
    dropLog := [] }

theorem worldSR_cellAt {T : Type} (n : Nat) (sent : List T) (r j : Nat)
    (hj : j < n) :
    cellAt (worldSR T n sent r) j = srCell sent (if r = 0 then 0 else r) j := by
  simp [worldSR, cellAt, List.getD_eq_getElem?_getD, List.getElem?_map,
    List.getElem?_range, hj]

theorem initWorld_eq_worldSR (T : Type) (n : Nat) (hn : 2 ≤ n) :
    initWorld T n = worldSR T n [] 0 := by
  unfold initWorld worldSR
  congr 1
  · apply List.ext_getElem
    · simp
    · intro j hj1 hj2
      simp only [List.length_set, List.length_replicate] at hj1
      rw [List.getElem_set, List.getElem_map, List.getElem_range]
      by_cases hj0 : 0 = j
      · subst hj0
        simp [srCell, Cell.move_to, Cell.new]
      · rw [if_neg hj0, List.getElem_replicate]
        have hj0' : ¬(j : Nat) = 0 := fun hc => hj0 hc.symm
        simp [srCell, Cell.new, hj0']
  · show some 1 = some ((List.length ([] : List T) + 1) % n)
    rw [show List.length ([] : List T) + 1 = 1 from rfl,
      Nat.mod_eq_of_lt (by omega : (1 : Nat) < n)]

theorem srCell_append_ne {T : Type} (sent : List T) (v : T) (pr j : Nat)
    (hj : j ≠ sent.length + 1) :
    srCell (sent ++ [v]) pr j = srCell sent pr j := by
  unfold srCell
  by_cases h : 1 ≤ j ∧ j ≤ sent.length
  · have hcond : 1 ≤ j ∧ j ≤ (sent ++ [v]).length := by
      simp only [List.length_append, List.length_cons, List.length_nil]
      omega
    rw [if_pos hcond, if_pos h, if_pos hcond, if_pos h]
    have hget : (sent ++ [v])[j - 1]? = sent[j - 1]? := by
      rw [List.getElem?_append]
      rw [if_pos (by omega)]
    rw [hget]
  · have hcond : ¬(1 ≤ j ∧ j ≤ (sent ++ [v]).length) := by
      simp only [List.length_append, List.length_cons, List.length_nil]
      omega
    rw [if_neg hcond, if_neg h, if_neg hcond, if_neg h]

theorem srCell_append_self {T : Type} (sent : List T) (v : T) (pr : Nat) :
    srCell (sent ++ [v]) pr (sent.length + 1)
      = { value := some v,
          read_counter := if sent.length + 1 = pr then 1 else 0,
          current_id := sent.length + 1 } := by
  unfold srCell
  have hcond : 1 ≤ sent.length + 1 ∧
      sent.length + 1 ≤ (sent ++ [v]).length := by
    simp
  rw [if_pos hcond, if_pos hcond]
  have hget : (sent ++ [v])[sent.length + 1 - 1]? = some v := by
    simp
  rw [hget]

theorem send_eq_ok {T : Type} {w : World T} {v : T} {idx : Nat}
    (h0 : w.num_receivers ≠ 0) (ht : w.tail = some idx)
    (hc : (cellAt w idx).read_counter = 0) :
    send w v
      = .ok (sendSucceed { w with tail := none } idx v).1 w.claimed idx := by
  simp only [send, if_neg h0]
  rw [ht]
  simp only [if_pos hc]
  rfl

theorem worldExt {T : Type} {a b : World T} (h1 : a.buffer = b.buffer)
    (h2 : a.claimed = b.claimed) (h3 : a.tail = b.tail)
    (h4 : a.num_receivers = b.num_receivers) (h5 : a.receivers = b.receivers)
    (h6 : a.senders = b.senders) (h7 : a.dropLog = b.dropLog) : a = b := by
  cases a
  cases b
  simp_all

theorem send_worldSR {T : Type} (n : Nat) (sent : List T) (v : T)
    (_hn : 2 ≤ n) (hlen : sent.length + 2 ≤ n) :
    send (worldSR T n sent 0) v
      = .ok (worldSR T n (sent ++ [v]) 0) (sent.length + 1)
          (sent.length + 1) := by
  have hidx : (sent.length + 1) % n = sent.length + 1 :=
    Nat.mod_eq_of_lt (by omega)
  have hcell : cellAt (worldSR T n sent 0) (sent.length + 1)
      = srCell sent 0 (sent.length + 1) := by
    simpa using worldSR_cellAt n sent 0 (sent.length + 1) (by omega)
  have hcounter : (srCell sent 0 (sent.length + 1)).read_counter = 0 := by
    simp [srCell]
  have ht : (worldSR T n sent 0).tail = some (sent.length + 1) := by
    show some ((sent.length + 1) % n) = some (sent.length + 1)
    rw [hidx]
  have hstep := @send_eq_ok T (worldSR T n sent 0) v (sent.length + 1)
    (by simp [worldSR]) ht (by rw [hcell, hcounter])
  have hwp : ((srCell sent 0 (sent.length + 1)).write_and_publish v
        (sent.length + 1)).1
      = ({ value := some v, read_counter := 0,
            current_id := sent.length + 1 } : Cell T) := by
    simp [Cell.write_and_publish, hcounter]
  have hbuf : ((worldSR T n sent 0).buffer.set (sent.length + 1)
        ({ value := some v, read_counter := 0,
            current_id := sent.length + 1 } : Cell T))
      = (worldSR T n (sent ++ [v]) 0).buffer := by
    apply List.ext_getElem
    · simp [worldSR]
    · intro j hj1 hj2
      simp only [List.getElem_set, worldSR, List.getElem_map,
        List.getElem_range, if_true]
      by_cases hje : sent.length + 1 = j
      · rw [if_pos hje]
        subst hje
        rw [srCell_append_self]
        simp
      · rw [if_neg hje,
          srCell_append_ne sent v 0 j (fun hc => hje hc.symm)]
  have hworld : (sendSucceed { worldSR T n sent 0 with tail := none }
        (sent.length + 1) v).1 = worldSR T n (sent ++ [v]) 0 := by
    refine worldExt ?_ ?_ ?_ rfl rfl rfl ?_
    · show (worldSR T n sent 0).buffer.set (sent.length + 1)
        ((cellAt (worldSR T n sent 0) (sent.length + 1)).write_and_publish v
          (sent.length + 1)).1 = (worldSR T n (sent ++ [v]) 0).buffer
      rw [hcell, hwp]
      exact hbuf
    · show sent.length + 1 + 1 = (sent ++ [v]).length + 1
      simp
    · show some (fast_mod (sent.length + 1 + 1)
          ({ worldSR T n sent 0 with tail := none } : World T).buffer.length)
        = some (((sent ++ [v]).length + 1) % n)
      have hlenb : ({ worldSR T n sent 0 with tail := none } :
          World T).buffer.length = n := by
        simp [worldSR]
      rw [hlenb]
      show some ((sent.length + 1 + 1) % n) = _
      simp
    · show List.nil ++ ((cellAt (worldSR T n sent 0) (sent.length + 1)
          ).write_and_publish v (sent.length + 1)).2.toList = []
      rw [hcell]
      show [] ++ ((srCell sent 0 (sent.length + 1)).value).toList = []
      simp [srCell]
  rw [hstep, hworld]
  rfl

theorem sendAll_worldSR {T : Type} (n : Nat) (hn : 2 ≤ n) :
    ∀ (rest sent : List T), sent.length + rest.length + 1 ≤ n →
      sendAll (worldSR T n sent 0) rest
        = some (worldSR T n (sent ++ rest) 0) := by
  intro rest
  induction rest with
  | nil =>
    intro sent h
    simp [sendAll]
  | cons v rest ih =>
    intro sent h
    have hone := send_worldSR n sent v hn (by
      simp only [List.length_cons] at h
      omega)
    simp only [sendAll, hone]
    rw [ih (sent ++ [v]) (by
      simp only [List.length_append, List.length_cons, List.length_nil] at h ⊢
      omega)]
    rw [List.append_cons sent v rest]

theorem recv_eq_ok {T : Type} {w : World T} {r : Nat} {rc : Rcv}
    (hrc : w.receivers[r]? = some rc)
    (hid : (cellAt w (fast_mod rc.cursor w.buffer.length)).current_id
      = rc.cursor) :
    recv w r = .ok (cellAt w (fast_mod rc.cursor w.buffer.length)).value
      (advanceReceiver w r rc (rc.cursor + 1)
        (fast_mod rc.cursor w.buffer.length)) := by
  simp only [recv, hrc]
  rw [if_pos hid]

theorem srCell_pr_change {T : Type} (sent : List T) (pr pr2 j : Nat)
    (h1 : j ≠ pr) (h2 : j ≠ pr2) :
    srCell sent pr j = srCell sent pr2 j := by
  unfold srCell
  rw [if_neg h1, if_neg h2]

theorem recv_worldSR {T : Type} (n : Nat) (sent : List T) (r : Nat)
    (hn : 2 ≤ n) (hr : r < sent.length) (hsent : sent.length + 1 ≤ n) :
    recv (worldSR T n sent r) 0
      = .ok sent[r]? (worldSR T n sent (r + 1)) := by
  have hr1n : r + 1 < n := by omega
  have hprn : (if r = 0 then 0 else r) < n := by
    by_cases h0 : r = 0 <;> simp [h0] <;> omega
  have hprne : (if r = 0 then 0 else r) ≠ r + 1 := by
    by_cases h0 : r = 0 <;> simp [h0]
  have hlenb : (worldSR T n sent r).buffer.length = n := by
    simp [worldSR]
  have hrc : (worldSR T n sent r).receivers[0]?
      = some { cursor := r + 1, prev := if r = 0 then 0 else r } := rfl
  have hmod : fast_mod (r + 1) (worldSR T n sent r).buffer.length = r + 1 := by
    show (r + 1) % (worldSR T n sent r).buffer.length = r + 1
    rw [hlenb]
    exact Nat.mod_eq_of_lt hr1n
  have hca : cellAt (worldSR T n sent r) (r + 1)
      = srCell sent (if r = 0 then 0 else r) (r + 1) :=
    worldSR_cellAt n sent r (r + 1) hr1n
  have hid : (cellAt (worldSR T n sent r) (r + 1)).current_id = r + 1 := by
    rw [hca]
    show (if 1 ≤ r + 1 ∧ r + 1 ≤ sent.length then r + 1 else USIZE_MAX) = r + 1
    rw [if_pos ⟨by omega, by omega⟩]
  have hstep := @recv_eq_ok T (worldSR T n sent r) 0
    { cursor := r + 1, prev := if r = 0 then 0 else r } hrc (by
      show (cellAt (worldSR T n sent r)
        (fast_mod (r + 1) (worldSR T n sent r).buffer.length)).current_id
        = r + 1
      rw [hmod]
      exact hid)
  rw [hstep]
  have hval : (cellAt (worldSR T n sent r)
      (fast_mod (r + 1) (worldSR T n sent r).buffer.length)).value
      = sent[r]? := by
    rw [hmod, hca]
    show (if 1 ≤ r + 1 ∧ r + 1 ≤ sent.length then sent[r + 1 - 1]?
      else none) = sent[r]?
    rw [if_pos ⟨by omega, by omega⟩]
    simp
  have hworld : advanceReceiver (worldSR T n sent r) 0
      { cursor := r + 1, prev := if r = 0 then 0 else r } (r + 1 + 1)
      (fast_mod (r + 1) (worldSR T n sent r).buffer.length)
      = worldSR T n sent (r + 1) := by
    rw [hmod]
    refine worldExt ?_ rfl rfl rfl ?_ rfl rfl
    · -- the buffer: move_to cell r+1, move_from cell pr
      apply List.ext_getElem
      · simp [advanceReceiver, modifyCell, setCell, worldSR]
      · intro j hj1 hj2
        have hjn : j < n := by
          simpa [worldSR] using hj2
        show (((worldSR T n sent r).buffer.set (r + 1)
            (Cell.move_to (cellAt (worldSR T n sent r) (r + 1)))).set
              (if r = 0 then 0 else r)
              (Cell.move_from (cellAt (modifyCell (worldSR T n sent r) (r + 1)
                Cell.move_to) (if r = 0 then 0 else r))))[j]
          = ((worldSR T n (sent) (r + 1)).buffer)[j]
        have hcam : cellAt (modifyCell (worldSR T n sent r) (r + 1)
            Cell.move_to) (if r = 0 then 0 else r)
            = srCell sent (if r = 0 then 0 else r) (if r = 0 then 0 else r) := by
          simp only [modifyCell]
          rw [cellAt_set]
          rw [if_neg (fun hc => hprne hc.1)]
          exact worldSR_cellAt n sent r _ hprn
        rw [List.getElem_set, List.getElem_set]
        simp only [hcam, hca]
        simp only [worldSR, List.getElem_map, List.getElem_range]
        by_cases hjp : (if r = 0 then 0 else r) = j
        · rw [if_pos hjp]
          rw [← hjp]
          show Cell.move_from (srCell sent (if r = 0 then 0 else r)
            (if r = 0 then 0 else r)) = srCell sent (if r + 1 = 0 then 0
              else r + 1) (if r = 0 then 0 else r)
          unfold srCell Cell.move_from
          simp [hprne]
        · rw [if_neg hjp]
          by_cases hjc : r + 1 = j
          · rw [if_pos hjc]
            rw [← hjc]
            show Cell.move_to (srCell sent (if r = 0 then 0 else r) (r + 1))
              = srCell sent (if r + 1 = 0 then 0 else r + 1) (r + 1)
            unfold srCell Cell.move_to
            have hne3 : ¬(r + 1 = if r = 0 then 0 else r) :=
              fun hc => hprne hc.symm
            simp [hne3]
          · rw [if_neg hjc]
            refine srCell_pr_change sent _ _ j (fun hc => hjp hc.symm) ?_
            have : (if r + 1 = 0 then 0 else r + 1) = r + 1 := by simp
            rw [this]
            exact fun hc => hjc hc.symm
    · -- the receiver handle
      show ([{ cursor := r + 1, prev := if r = 0 then 0 else r }].set 0
          { cursor := r + 1 + 1, prev := r + 1 } : List Rcv)
        = [{ cursor := r + 1 + 1, prev := if r + 1 = 0 then 0 else r + 1 }]
      have : (if r + 1 = 0 then 0 else r + 1) = r + 1 := by simp
      rw [this]
      rfl
  show RecvRes.ok
      (cellAt (worldSR T n sent r)
        (fast_mod (r + 1) (worldSR T n sent r).buffer.length)).value
      (advanceReceiver (worldSR T n sent r) 0
        { cursor := r + 1, prev := if r = 0 then 0 else r } (r + 1 + 1)
        (fast_mod (r + 1) (worldSR T n sent r).buffer.length))
    = RecvRes.ok sent[r]? (worldSR T n sent (r + 1))
  rw [hval, hworld]

theorem recvN_worldSR {T : Type} (n : Nat) (sent : List T) (hn : 2 ≤ n)
    (hsent : sent.length + 1 ≤ n) :
    ∀ (k r : Nat), r + k ≤ sent.length →
      recvN (worldSR T n sent r) 0 k
        = some ((sent.drop r).take k, worldSR T n sent (r + k)) := by
  intro k
  induction k with
  | zero =>
    intro r h
    simp [recvN]
  | succ k ih =>
    intro r h
    have hr : r < sent.length := by omega
    have hone := recv_worldSR n sent r hn hr hsent
    rw [List.getElem?_eq_getElem hr] at hone
    simp only [recvN, hone]
    rw [ih (r + 1) (by omega)]
    rw [List.drop_eq_getElem_cons hr, List.take_succ_cons]
    rw [show r + 1 + k = r + (k + 1) by omega]

/-- C1 — FIFO on a single pair: for every valid size and every batch of
values that fits in the ring alongside the claim counter's head room,
creating the channel, sending all the values with the one sender (every
`send` returning `Ok`), and then receiving that many times with the one
receiver yields exactly the sent values in send order. -/
theorem c1_send_recv_fifo {T : Type} (size : Nat) (vs : List T)
    (h2 : 2 ≤ size) (hM : size ≤ ISIZE_MAX)
    (hcap : vs.length + 1 ≤ maybe_next_power_of_two size) :
    ∃ w0 w1 w2, makeChannel T size = .ok w0 ∧
      sendAll w0 vs = some w1 ∧
      recvN w1 0 vs.length = some (vs, w2) := by
  have hN2 : 2 ≤ maybe_next_power_of_two size :=
    le_trans h2 (maybe_next_power_of_two_spec size).2.1
  refine ⟨initWorld T (maybe_next_power_of_two size),
    worldSR T (maybe_next_power_of_two size) vs 0,
    worldSR T (maybe_next_power_of_two size) vs vs.length, ?_, ?_, ?_⟩
  · unfold makeChannel
    rw [if_neg (Nat.not_lt.mpr h2), if_neg (Nat.not_lt.mpr hM)]
  · rw [initWorld_eq_worldSR T _ hN2]
    have hall := sendAll_worldSR (maybe_next_power_of_two size) hN2 vs []
      (by simpa using hcap)
    simpa using hall
  · have hrec := recvN_worldSR (maybe_next_power_of_two size) vs hN2 hcap
      vs.length 0 (by omega)
    simpa using hrec

/-- C1 — witness: size 4, values `[1, 2, 3]`. -/
theorem c1_send_recv_fifo_witness :
    ∃ w0 w1 w2, makeChannel Nat 4 = .ok w0 ∧
      sendAll w0 [1, 2, 3] = some w1 ∧
      recvN w1 0 3 = some ([1, 2, 3], w2) :=
  c1_send_recv_fifo 4 [1, 2, 3] (by norm_num)
    (by norm_num [ISIZE_MAX]) (by decide)

end NexusQ2
